import Mathlib

/-!
Verification of the keyed-list reconciliation algorithm (`map_keyed` in
`leptos_core/src/map.rs`), of the `RenderHtml` implementation for `Result`
(`tachys/src/view/error_boundary.rs`), and of `Transition`
(`reactive/src/transition.rs`).

The reconciliation effect body is embedded as a pure function `reconcile`
over explicit previous state (previous input `items`, previous mapped
output `mapped`, previous scope-disposer array `disposers`) and the new
input `newItems`.  Resource scopes are modelled by natural-number
identifiers handed out by a counter; `ScopeDisposer` slots are
`Option Nat` exactly as the source's `Vec<Option<ScopeDisposer>>`.
Scope creations, synchronous disposals (`disposer.dispose()` inside the
match pass) and deferred disposals (the `queue_microtask` bulk-clear
path) are recorded in separate event lists of the result, so that the
timing asymmetry of the two disposal paths is directly observable.
-/

set_option maxHeartbeats 1000000

namespace LeptosMap

variable {T K U : Type}

/-- Model of `HashMap::insert` / `get` on `HashMap<K, usize>`:
an association list where the most recent insertion shadows older ones. -/
def klookup [DecidableEq K] (m : List (K × Nat)) (k : K) : Option Nat :=
  (m.find? (fun p => decide (p.1 = k))).map Prod.snd

def kinsert (m : List (K × Nat)) (k : K) (v : Nat) : List (K × Nat) :=
  (k, v) :: m

/-- `items.iter().zip(new_items.iter()).position(|(a, b)| a != b).unwrap_or(min_len)`
(map.rs lines 66-71): index of the first positional difference,
or the length of the shorter list when there is none. -/
def firstDiffIdx [DecidableEq T] : List T → List T → Nat
  | a :: as_, b :: bs => if a = b then firstDiffIdx as_ bs + 1 else 0
  | _, _ => 0

/-- State of the suffix-skip loop (map.rs lines 73-83):
`e` is `end`, `ne` is `new_end`; `temp`/`tempD` are the staging arrays
`temp` and `temp_disposers`; `disposers` is the old disposer array being
drained by `disposers[end].take()`. -/
structure SuffixSt (U : Type) where
  e : Nat
  ne : Nat
  temp : List (Option U)
  tempD : List (Option Nat)
  disposers : List (Option Nat)

/-- The `while end > start && new_end > start && items[end-1] == new_items[new_end-1]`
loop of map.rs lines 78-83.  `fuel` bounds the iteration count; it is
called with `fuel = items.length`, which always suffices since `e`
decreases by one per iteration. -/
def suffixLoop [DecidableEq T] [Inhabited T] [Inhabited U]
    (items newItems : List T) (mapped : List U) (start : Nat) :
    Nat → SuffixSt U → SuffixSt U
  | 0, st => st
  | fuel + 1, st =>
    if st.e > start ∧ st.ne > start ∧
        items.getD (st.e - 1) default = newItems.getD (st.ne - 1) default then
      suffixLoop items newItems mapped start fuel
        { e := st.e - 1
          ne := st.ne - 1
          temp := st.temp.set (st.ne - 1) (some (mapped.getD (st.e - 1) default))
          tempD := st.tempD.set (st.ne - 1) (st.disposers.getD (st.e - 1) none)
          disposers := st.disposers.set (st.e - 1) none }
    else st

/-- First index `j` with `lo ≤ j < hi` and `kf newItems[j] = k`, if any.
Used to specify the backward-scan key-index construction. -/
def leastOccFrom [DecidableEq K] [Inhabited T]
    (kf : T → K) (newItems : List T) (k : K) (lo hi : Nat) : Option Nat :=
  (List.range' lo (hi - lo)).find? (fun j => decide (kf (newItems.getD j default) = k))

/-- The backward index-construction loop of map.rs lines 92-97:
`for j in (start..new_end).rev()`, building `new_indices` (the key map)
and `new_indices_next` (the next-occurrence table, shifted by `start`).
`fuel = n` processes `j = start + n - 1` down to `j = start`. -/
def buildIdx [DecidableEq K] [Inhabited T]
    (kf : T → K) (newItems : List T) (start : Nat) :
    Nat → List (K × Nat) × List (Option Nat) → List (K × Nat) × List (Option Nat)
  | 0, st => st
  | n + 1, (m, nxt) =>
    let j := start + n
    let k := kf (newItems.getD j default)
    buildIdx kf newItems start n (kinsert m k j, nxt.set (j - start) (klookup m k))

/-- State of the match pass over the old sub-range (map.rs lines 101-112). -/
structure MatchSt (K U : Type) where
  temp : List (Option U)
  tempD : List (Option Nat)
  disposers : List (Option Nat)
  m : List (K × Nat)
  sync : List Nat

/-- Body of one iteration of the match pass (map.rs lines 101-112):
look the old item's key up in `new_indices`; if found at `j`, move the
mapped element and take the disposer into the staging arrays at `j` and
advance the key to its next-occurrence candidate; otherwise take the
disposer and dispose it synchronously. -/
def matchStep [DecidableEq K] [Inhabited T] [Inhabited U]
    (kf : T → K) (items : List T) (mapped : List U) (start : Nat)
    (nxt : List (Option Nat)) (i : Nat) (st : MatchSt K U) : MatchSt K U :=
  let k := kf (items.getD i default)
  match klookup st.m k with
  | some j =>
    { temp := st.temp.set j (some (mapped.getD i default))
      tempD := st.tempD.set j (st.disposers.getD i none)
      disposers := st.disposers.set i none
      m := match nxt.getD (j - start) none with
           | some j2 => kinsert st.m k j2
           | none => st.m
      sync := st.sync }
  | none =>
    { temp := st.temp
      tempD := st.tempD
      disposers := st.disposers.set i none
      m := st.m
      sync := st.sync ++ (st.disposers.getD i none).toList }

/-- The `for i in start..end` match pass; `fuel = end - start`, starting
at index `i = start`. -/
def matchPass [DecidableEq K] [Inhabited T] [Inhabited U]
    (kf : T → K) (items : List T) (mapped : List U) (start : Nat)
    (nxt : List (Option Nat)) :
    Nat → Nat → MatchSt K U → MatchSt K U
  | 0, _, st => st
  | n + 1, i, st =>
    matchPass kf items mapped start nxt n (i + 1)
      (matchStep kf items mapped start nxt i st)

/-- State of the fill pass (map.rs lines 116-141): the mutable `mapped`
and `disposers` vectors, the staging arrays being drained, the fresh
scope-id counter, and the list of scope ids created so far. -/
structure FillSt (U : Type) where
  mapped : List U
  disposers : List (Option Nat)
  temp : List (Option U)
  tempD : List (Option Nat)
  counter : Nat
  created : List Nat

/-- Body of one iteration of the fill pass (map.rs lines 116-141):
pull from the staging array when `temp[j]` is occupied (push vs. set
according to `j >= mapped.len()`), otherwise create a fresh scope and
run `map_fn` under it. -/
def fillStep [Inhabited T] (mf : Nat → T → U) (newItems : List T)
    (j : Nat) (st : FillSt U) : FillSt U :=
  match st.temp.getD j none with
  | some v =>
    if j ≥ st.mapped.length then
      { st with
          mapped := st.mapped ++ [v]
          disposers := st.disposers ++ [st.tempD.getD j none]
          tempD := st.tempD.set j none }
    else
      { st with
          mapped := st.mapped.set j v
          disposers := st.disposers.set j (st.tempD.getD j none)
          tempD := st.tempD.set j none }
  | none =>
    let v := mf st.counter (newItems.getD j default)
    if st.mapped.length > j then
      { st with
          mapped := st.mapped.set j v
          disposers := st.disposers.set j (some st.counter)
          counter := st.counter + 1
          created := st.created ++ [st.counter] }
    else
      { st with
          mapped := st.mapped ++ [v]
          disposers := st.disposers ++ [some st.counter]
          counter := st.counter + 1
          created := st.created ++ [st.counter] }

/-- The `for j in start..new_items.len()` fill pass; `fuel = len - start`. -/
def fillPass [Inhabited T] (mf : Nat → T → U) (newItems : List T) :
    Nat → Nat → FillSt U → FillSt U
  | 0, _, st => st
  | n + 1, j, st => fillPass mf newItems n (j + 1) (fillStep mf newItems j st)

/-- The creation loop of the empty-previous fast path (map.rs lines 52-59):
returns the mapped values, disposer slots, final counter and created ids,
in input order. -/
def createAll (mf : Nat → T → U) :
    List T → Nat → List U × List (Option Nat) × Nat × List Nat
  | [], c => ([], [], c, [])
  | t :: ts, c =>
    let v := mf c t
    let r := createAll mf ts (c + 1)
    (v :: r.1, some c :: r.2.1, r.2.2.1, c :: r.2.2.2)

/-- Result of one reconciliation pass: the new mapped output, the new
disposer array, the next fresh scope id, and the event lists (created
scope ids, scope ids disposed synchronously inside the pass, scope ids
whose disposal was queued as a deferred microtask). -/
structure ReconcileResult (U : Type) where
  mapped : List U
  disposers : List (Option Nat)
  counter : Nat
  created : List Nat
  syncDisposed : List Nat
  deferredDisposed : List Nat

/-- `start` for the general case (map.rs lines 66-71). -/
def rcStart [DecidableEq T] (items newItems : List T) : Nat :=
  firstDiffIdx items newItems

/-- The suffix-skip stage applied to the initial staging state
(`temp = vec![None; new_items.len()]`, map.rs lines 61-83). -/
def rcSuffix [DecidableEq T] [Inhabited T] [Inhabited U]
    (items newItems : List T) (mapped : List U)
    (disposers : List (Option Nat)) : SuffixSt U :=
  suffixLoop items newItems mapped (rcStart items newItems) items.length
    { e := items.length
      ne := newItems.length
      temp := List.replicate newItems.length none
      tempD := List.replicate newItems.length none
      disposers := disposers }

/-- The key-index construction stage (map.rs lines 87-97). -/
def rcBuild [DecidableEq T] [DecidableEq K] [Inhabited T] [Inhabited U]
    (kf : T → K) (items newItems : List T) (mapped : List U)
    (disposers : List (Option Nat)) : List (K × Nat) × List (Option Nat) :=
  buildIdx kf newItems (rcStart items newItems)
    ((rcSuffix items newItems mapped disposers).ne - rcStart items newItems)
    ([], List.replicate
      ((rcSuffix items newItems mapped disposers).ne - rcStart items newItems) none)

/-- The match pass stage (map.rs lines 101-112). -/
def rcMatch [DecidableEq T] [DecidableEq K] [Inhabited T] [Inhabited U]
    (kf : T → K) (items newItems : List T) (mapped : List U)
    (disposers : List (Option Nat)) : MatchSt K U :=
  matchPass kf items mapped (rcStart items newItems)
    (rcBuild kf items newItems mapped disposers).2
    ((rcSuffix items newItems mapped disposers).e - rcStart items newItems)
    (rcStart items newItems)
    { temp := (rcSuffix items newItems mapped disposers).temp
      tempD := (rcSuffix items newItems mapped disposers).tempD
      disposers := (rcSuffix items newItems mapped disposers).disposers
      m := (rcBuild kf items newItems mapped disposers).1
      sync := [] }

/-- The fill pass stage (map.rs lines 116-141); note that `mapped` is
still the previous mapped array here — the general case only writes to
it in this stage. -/
def rcFill [DecidableEq T] [DecidableEq K] [Inhabited T] [Inhabited U]
    (kf : T → K) (mf : Nat → T → U) (items newItems : List T)
    (mapped : List U) (disposers : List (Option Nat))
    (counter : Nat) : FillSt U :=
  fillPass mf newItems (newItems.length - rcStart items newItems)
    (rcStart items newItems)
    { mapped := mapped
      disposers := (rcMatch kf items newItems mapped disposers).disposers
      temp := (rcMatch kf items newItems mapped disposers).temp
      tempD := (rcMatch kf items newItems mapped disposers).tempD
      counter := counter
      created := [] }

/-- The general (both-non-empty) case of the reconciliation effect body
(map.rs lines 60-145), including the final truncation to the new length. -/
def reconcileGeneral [DecidableEq T] [DecidableEq K] [Inhabited T] [Inhabited U]
    (kf : T → K) (mf : Nat → T → U) (items newItems : List T)
    (mapped : List U) (disposers : List (Option Nat))
    (counter : Nat) : ReconcileResult U :=
  { mapped := (rcFill kf mf items newItems mapped disposers counter).mapped.take
      newItems.length
    disposers := (rcFill kf mf items newItems mapped disposers counter).disposers.take
      newItems.length
    counter := (rcFill kf mf items newItems mapped disposers counter).counter
    created := (rcFill kf mf items newItems mapped disposers counter).created
    syncDisposed := (rcMatch kf items newItems mapped disposers).sync
    deferredDisposed := [] }

/-- One reconciliation pass: the body of the `create_effect` closure of
`map_keyed` (map.rs lines 36-155).  `items`, `mapped`, `disposers` are the
retained previous state, `newItems` the freshly read input, `counter` the
next fresh scope id.  The three branches are the all-removed fast path
(lines 41-49), the previously-empty fast path (lines 50-59) and the
general diff (lines 60-142); truncation (lines 143-145) is applied in
each branch. -/
def reconcile [DecidableEq T] [DecidableEq K] [Inhabited T] [Inhabited U]
    (kf : T → K) (mf : Nat → T → U) (items : List T) (mapped : List U)
    (disposers : List (Option Nat)) (newItems : List T)
    (counter : Nat) : ReconcileResult U :=
  if newItems.isEmpty then
    { mapped := []
      disposers := []
      counter := counter
      created := []
      syncDisposed := []
      deferredDisposed := disposers.filterMap id }
  else if items.isEmpty then
    { mapped := (mapped ++ (createAll mf newItems counter).1).take newItems.length
      disposers := (disposers ++ (createAll mf newItems counter).2.1).take newItems.length
      counter := (createAll mf newItems counter).2.2.1
      created := (createAll mf newItems counter).2.2.2
      syncDisposed := []
      deferredDisposed := [] }
  else
    reconcileGeneral kf mf items newItems mapped disposers counter

/-- Well-formedness of the retained state between passes: the three
retained arrays are index-aligned, every disposer slot is occupied,
slots hold pairwise-distinct scopes, and every held scope id is below
the fresh counter. -/
abbrev WfState (items : List T) (mapped : List U)
    (disposers : List (Option Nat)) (counter : Nat) : Prop :=
  mapped.length = items.length ∧
  disposers.length = items.length ∧
  none ∉ disposers ∧
  disposers.Pairwise (· ≠ ·) ∧
  ∀ s ∈ disposers.filterMap id, s < counter

/-- Invariant of the suffix-skip loop, relating the loop state to the
original `items`/`newItems`/`mapped`/`disposers`: the intervals
`[e, items.length)` and `[ne, newItems.length)` are mirrored suffixes
whose staged elements and disposers sit at their new positions in
`temp`/`tempD`, and whose old disposer slots have been taken. -/
structure SuffixInv [Inhabited T] [Inhabited U]
    (items newItems : List T) (mapped : List U)
    (disposers : List (Option Nat)) (start : Nat) (st : SuffixSt U) : Prop where
  hstart_e : start ≤ st.e
  hstart_ne : start ≤ st.ne
  he : st.e ≤ items.length
  hne : st.ne ≤ newItems.length
  hbal : items.length - st.e = newItems.length - st.ne
  htemp_len : st.temp.length = newItems.length
  htempD_len : st.tempD.length = newItems.length
  hdisp_len : st.disposers.length = items.length
  htemp : ∀ j < newItems.length, st.temp.getD j none =
    if st.ne ≤ j then some (mapped.getD (j - st.ne + st.e) default) else none
  htempD : ∀ j < newItems.length, st.tempD.getD j none =
    if st.ne ≤ j then disposers.getD (j - st.ne + st.e) none else none
  hdisp : ∀ i < items.length, st.disposers.getD i none =
    if st.e ≤ i then none else disposers.getD i none
  heq : ∀ j, st.ne ≤ j → j < newItems.length →
    newItems.getD j default = items.getD (j - st.ne + st.e) default

end LeptosMap

namespace TachysResult

variable {T E Pos SB : Type}

/-- `html_len` of `impl RenderHtml for Result` (error_boundary.rs 51-56):
`Ok` delegates to the inner value, `Err` reports zero length. -/
def html_len (innerLen : T → Nat) : Except E T → Nat
  | .ok i => innerLen i
  | .error _ => 0

/-- `to_html_with_buf` (error_boundary.rs 58-66): only an `Ok` value
writes; the buffer and position are threaded explicitly. -/
def to_html_with_buf (inner : T → String → Pos → String × Pos) :
    Except E T → String → Pos → String × Pos
  | .ok i, buf, position => inner i buf position
  | .error _, buf, position => (buf, position)

/-- `to_html_async_with_buf` (error_boundary.rs 68-78), with the
`StreamBuilder` abstracted as `SB`. -/
def to_html_async_with_buf (inner : T → SB → Pos → SB × Pos) :
    Except E T → SB → Pos → SB × Pos
  | .ok i, buf, position => inner i buf position
  | .error _, buf, position => (buf, position)

end TachysResult

namespace ReactiveTransition

/-- Opaque reactive scope handle (`Scope` in transition.rs). -/
structure Scope where
  id : Nat

/-- The `Transition` handle (transition.rs 22-28); the pending signal is
modelled by its current boolean value. -/
structure Transition where
  pending : Bool

/-- `use_transition` (transition.rs 12-20): `create_signal(cx, false)`. -/
def use_transition (_cx : Scope) : Transition :=
  { pending := false }

/-- Model of a Rust panic result. -/
inductive PanicKind where
  | todoUnimplemented
  deriving DecidableEq

/-- `Transition::start` (transition.rs 31-79): the entire previous body is
commented out and the live body is `todo!()`, so the call panics
unconditionally before touching `f` or any transition state. -/
def Transition.start (_t : Transition) (_f : Unit → Unit) :
    Except PanicKind (Transition × Unit) :=
  .error .todoUnimplemented

/-- `Transition::pending` (transition.rs 81-83): reads the pending signal. -/
def Transition.pendingValue (t : Transition) : Bool :=
  t.pending

end ReactiveTransition

namespace ListAux

/-! Small `List.getD` helpers used throughout the development. -/

theorem getD_set_self {α : Type} (l : List α) (i : Nat) (a d : α)
    (h : i < l.length) : (l.set i a).getD i d = a := by
  simp [List.getD_eq_getElem?_getD, List.getElem?_set_self h]

theorem getD_set_ne {α : Type} (l : List α) {i j : Nat} (a : α) (d : α)
    (h : i ≠ j) : (l.set i a).getD j d = l.getD j d := by
  simp [List.getD_eq_getElem?_getD, List.getElem?_set_ne h]

theorem getD_append_left {α : Type} (l₁ l₂ : List α) {i : Nat} (d : α)
    (h : i < l₁.length) : (l₁ ++ l₂).getD i d = l₁.getD i d := by
  simp [List.getD_eq_getElem?_getD, List.getElem?_append, h]

theorem getD_concat_self {α : Type} (l : List α) (a d : α) :
    (l ++ [a]).getD l.length d = a := by
  simp [List.getD_eq_getElem?_getD, List.getElem?_append_right (Nat.le_refl _)]

theorem getD_replicate {α : Type} {n i : Nat} (a d : α) :
    (List.replicate n a).getD i d = if i < n then a else d := by
  split <;> rename_i h
  · simp [List.getD_eq_getElem?_getD, List.getElem?_replicate, h]
  · simp [List.getD_eq_getElem?_getD, List.getElem?_replicate, h]

theorem getD_of_len_le {α : Type} {l : List α} {i : Nat} (d : α)
    (h : l.length ≤ i) : l.getD i d = d := by
  simp [List.getD_eq_getElem?_getD, List.getElem?_eq_none h]

theorem getD_take_lt {α : Type} (l : List α) {n i : Nat} (d : α) (h : i < n) :
    (l.take n).getD i d = l.getD i d := by
  simp [List.getD_eq_getElem?_getD, List.getElem?_take, h]

theorem getD_eq_getElem {α : Type} (l : List α) {i : Nat} (d : α)
    (h : i < l.length) : l.getD i d = l[i] := by
  simp [List.getD_eq_getElem?_getD, List.getElem?_eq_getElem h]

theorem getD_mem {α : Type} {l : List α} {i : Nat} {d : α}
    (h : i < l.length) : l.getD i d ∈ l := by
  rw [getD_eq_getElem l d h]; exact List.getElem_mem h

theorem mem_of_getD {α : Type} {l : List α} {i : Nat} {d : α} {a : α}
    (h : i < l.length) (hv : l.getD i d = a) : a ∈ l := hv ▸ getD_mem h

end ListAux

namespace LeptosMap

open ListAux

variable {T K U : Type}

theorem klookup_kinsert [DecidableEq K] (m : List (K × Nat)) (k k' : K) (v : Nat) :
    klookup (kinsert m k v) k' = if k = k' then some v else klookup m k' := by
  by_cases h : k = k' <;> simp [klookup, kinsert, List.find?_cons, h]

theorem klookup_nil [DecidableEq K] (k : K) : klookup ([] : List (K × Nat)) k = none := rfl

/-- Positions of a list with `Nodup` keys are determined by their key. -/
theorem nodup_keys_inj [Inhabited T] (kf : T → K) {l : List T}
    (h : (l.map kf).Nodup) {i j : Nat} (hi : i < l.length) (hj : j < l.length)
    (hk : kf (l.getD i default) = kf (l.getD j default)) : i = j := by
  by_contra hne
  have hp := (List.pairwise_iff_getElem (R := fun a b : K => a ≠ b)).1 h
  have hi' : i < (l.map kf).length := by simpa using hi
  have hj' : j < (l.map kf).length := by simpa using hj
  have hk' : kf l[i] = kf l[j] := by
    rw [← getD_eq_getElem l default hi, ← getD_eq_getElem l default hj]; exact hk
  rcases Nat.lt_or_ge i j with hlt | hge
  · exact hp i j hi' hj' hlt (by simpa [List.getElem_map] using hk')
  · have hlt : j < i := Nat.lt_of_le_of_ne hge (fun hh => hne hh.symm)
    exact hp j i hj' hi' hlt (by simpa [List.getElem_map] using hk'.symm)

/-- Slots of a pairwise-distinct disposer array are determined by their
scope id. -/
theorem disposers_scope_inj {dl : List (Option Nat)}
    (hp : dl.Pairwise (· ≠ ·)) {i j s : Nat}
    (hi : i < dl.length) (hj : j < dl.length)
    (h1 : dl.getD i none = some s) (h2 : dl.getD j none = some s) : i = j := by
  by_contra hne
  have hp' := (List.pairwise_iff_getElem (R := fun a b : Option Nat => a ≠ b)).1 hp
  rcases Nat.lt_or_ge i j with hlt | hge
  · exact hp' i j hi hj hlt (by
      rw [← getD_eq_getElem dl none hi, ← getD_eq_getElem dl none hj, h1, h2])
  · have hlt : j < i := Nat.lt_of_le_of_ne hge (fun hh => hne hh.symm)
    exact hp' j i hj hi hlt (by
      rw [← getD_eq_getElem dl none hi, ← getD_eq_getElem dl none hj, h1, h2])

theorem filterMap_id_nodup {dl : List (Option Nat)}
    (hp : dl.Pairwise (· ≠ ·)) : (dl.filterMap id).Nodup :=
  List.Nodup.filterMap
    (fun a a' b hb hb' => by
      cases a <;> cases a' <;> simp_all [Option.mem_def])
    hp

theorem mem_filterMap_id {dl : List (Option Nat)} {s : Nat} :
    s ∈ dl.filterMap id ↔ some s ∈ dl := by
  simp [List.mem_filterMap, Option.mem_def, eq_comm]

/-! `firstDiffIdx` facts (map.rs lines 66-71). -/

theorem firstDiffIdx_le [DecidableEq T] :
    ∀ (items newItems : List T),
      firstDiffIdx items newItems ≤ min items.length newItems.length
  | [], _ => by simp [firstDiffIdx]
  | _ :: _, [] => by simp [firstDiffIdx]
  | a :: as_, b :: bs => by
    by_cases h : a = b
    · have := firstDiffIdx_le as_ bs
      simp only [firstDiffIdx, h, if_true, List.length_cons]
      omega
    · simp [firstDiffIdx, h]

theorem firstDiffIdx_prefix_eq [DecidableEq T] [Inhabited T] :
    ∀ (items newItems : List T) (j : Nat), j < firstDiffIdx items newItems →
      items.getD j default = newItems.getD j default
  | [], _, j, h => by simp [firstDiffIdx] at h
  | _ :: _, [], j, h => by simp [firstDiffIdx] at h
  | a :: as_, b :: bs, j, h => by
    by_cases hab : a = b
    · cases j with
      | zero => simpa [List.getD] using hab
      | succ j =>
        simp only [firstDiffIdx, hab, if_true] at h
        simpa [List.getD] using firstDiffIdx_prefix_eq as_ bs j (by omega)
    · simp [firstDiffIdx, hab] at h

theorem firstDiffIdx_self [DecidableEq T] :
    ∀ (l : List T), firstDiffIdx l l = l.length
  | [] => rfl
  | a :: as_ => by simp [firstDiffIdx, firstDiffIdx_self as_]

/-! `leastOccFrom` recurrences and characterization. -/

theorem leastOccFrom_stop [DecidableEq K] [Inhabited T]
    (kf : T → K) (ni : List T) (k : K) {lo hi : Nat} (h : hi ≤ lo) :
    leastOccFrom kf ni k lo hi = none := by
  have : hi - lo = 0 := by omega
  simp [leastOccFrom, this]

theorem leastOccFrom_step [DecidableEq K] [Inhabited T]
    (kf : T → K) (ni : List T) (k : K) {lo hi : Nat} (h : lo < hi) :
    leastOccFrom kf ni k lo hi =
      if kf (ni.getD lo default) = k then some lo
      else leastOccFrom kf ni k (lo + 1) hi := by
  have h1 : hi - lo = (hi - (lo + 1)) + 1 := by omega
  unfold leastOccFrom
  rw [h1, List.range'_succ]
  by_cases hk : kf (ni.getD lo default) = k
  · rw [if_pos hk]
    exact List.find?_cons_of_pos _ (by simpa using hk)
  · rw [if_neg hk]
    exact List.find?_cons_of_neg _ (by simpa using hk)

theorem leastOccFrom_bounds [DecidableEq K] [Inhabited T]
    (kf : T → K) (ni : List T) (k : K) {hi' : Nat} :
    ∀ (n lo j : Nat), hi' = lo + n →
      leastOccFrom kf ni k lo hi' = some j →
      lo ≤ j ∧ j < hi' ∧ kf (ni.getD j default) = k := by
  intro n
  induction n with
  | zero =>
    intro lo j hhi hsome
    rw [leastOccFrom_stop kf ni k (by omega)] at hsome
    exact absurd hsome (by simp)
  | succ n ih =>
    intro lo j hhi hsome
    rw [leastOccFrom_step kf ni k (by omega)] at hsome
    by_cases hk : kf (ni.getD lo default) = k
    · simp only [hk, if_true, Option.some.injEq] at hsome
      subst hsome
      exact ⟨Nat.le_refl _, by omega, hk⟩
    · simp only [hk, if_false] at hsome
      have := ih (lo + 1) j (by omega) hsome
      exact ⟨by omega, this.2.1, this.2.2⟩

theorem leastOccFrom_least [DecidableEq K] [Inhabited T]
    (kf : T → K) (ni : List T) (k : K) {hi' : Nat} :
    ∀ (n lo j : Nat), hi' = lo + n →
      leastOccFrom kf ni k lo hi' = some j →
      ∀ j', lo ≤ j' → j' < j → kf (ni.getD j' default) ≠ k := by
  intro n
  induction n with
  | zero =>
    intro lo j hhi hsome
    rw [leastOccFrom_stop kf ni k (by omega)] at hsome
    exact absurd hsome (by simp)
  | succ n ih =>
    intro lo j hhi hsome j' hj1 hj2
    rw [leastOccFrom_step kf ni k (by omega)] at hsome
    by_cases hk : kf (ni.getD lo default) = k
    · simp only [hk, if_true, Option.some.injEq] at hsome
      omega
    · simp only [hk, if_false] at hsome
      rcases Nat.eq_or_lt_of_le hj1 with h | h
      · exact h ▸ hk
      · exact ih (lo + 1) j (by omega) hsome j' (by omega) hj2

theorem leastOccFrom_none [DecidableEq K] [Inhabited T]
    (kf : T → K) (ni : List T) (k : K) {hi' : Nat} :
    ∀ (n lo : Nat), hi' = lo + n →
      leastOccFrom kf ni k lo hi' = none →
      ∀ j, lo ≤ j → j < hi' → kf (ni.getD j default) ≠ k := by
  intro n
  induction n with
  | zero => intro lo _ _ j _ _; omega
  | succ n ih =>
    intro lo hhi hnone j hj1 hj2
    rw [leastOccFrom_step kf ni k (by omega)] at hnone
    by_cases hk : kf (ni.getD lo default) = k
    · rw [if_pos hk] at hnone
      exact absurd hnone (by simp)
    · rw [if_neg hk] at hnone
      rcases Nat.eq_or_lt_of_le hj1 with h | h
      · exact h ▸ hk
      · exact ih (lo + 1) (by omega) hnone j (by omega) hj2

/-! Suffix-skip loop invariant (map.rs lines 73-83). -/

theorem suffixInv_mk [Inhabited T] [Inhabited U]
    (items newItems : List T) (mapped : List U) (disposers : List (Option Nat))
    (start e ne : Nat) (temp : List (Option U)) (tempD disp : List (Option Nat))
    (h1 : start ≤ e) (h2 : start ≤ ne)
    (h3 : e ≤ items.length) (h4 : ne ≤ newItems.length)
    (h5 : items.length - e = newItems.length - ne)
    (h6 : temp.length = newItems.length)
    (h7 : tempD.length = newItems.length)
    (h8 : disp.length = items.length)
    (h9 : ∀ j < newItems.length, temp.getD j none =
      if ne ≤ j then some (mapped.getD (j - ne + e) default) else none)
    (h10 : ∀ j < newItems.length, tempD.getD j none =
      if ne ≤ j then disposers.getD (j - ne + e) none else none)
    (h11 : ∀ i < items.length, disp.getD i none =
      if e ≤ i then none else disposers.getD i none)
    (h12 : ∀ j, ne ≤ j → j < newItems.length →
      newItems.getD j default = items.getD (j - ne + e) default) :
    SuffixInv items newItems mapped disposers start ⟨e, ne, temp, tempD, disp⟩ :=
  ⟨h1, h2, h3, h4, h5, h6, h7, h8, h9, h10, h11, h12⟩

theorem suffixInv_init [Inhabited T] [Inhabited U]
    (items newItems : List T) (mapped : List U) (disposers : List (Option Nat))
    (start : Nat) (hd : disposers.length = items.length)
    (hs1 : start ≤ items.length) (hs2 : start ≤ newItems.length) :
    SuffixInv items newItems mapped disposers start
      { e := items.length
        ne := newItems.length
        temp := List.replicate newItems.length none
        tempD := List.replicate newItems.length none
        disposers := disposers } := by
  refine suffixInv_mk items newItems mapped disposers start _ _ _ _ _
    hs1 hs2 (Nat.le_refl _) (Nat.le_refl _) (by omega) (by simp) (by simp) hd
    ?_ ?_ ?_ ?_
  · intro j hj
    rw [getD_replicate, if_pos hj, if_neg (by omega)]
  · intro j hj
    rw [getD_replicate, if_pos hj, if_neg (by omega)]
  · intro i hi
    rw [if_neg (by omega)]
  · intro j h1 h2
    omega

theorem suffixLoop_spec [DecidableEq T] [Inhabited T] [Inhabited U]
    (items newItems : List T) (mapped : List U) (disposers : List (Option Nat))
    (start : Nat) :
    ∀ (fuel : Nat) (st : SuffixSt U),
      SuffixInv items newItems mapped disposers start st →
      st.e ≤ start + fuel →
      SuffixInv items newItems mapped disposers start
        (suffixLoop items newItems mapped start fuel st) := by
  intro fuel
  induction fuel with
  | zero =>
    intro st inv _
    simpa [suffixLoop] using inv
  | succ fuel ih =>
    intro st inv hfuel
    simp only [suffixLoop]
    split
    · rename_i hguard
      obtain ⟨hge, hgne, hgeq⟩ := hguard
      have he1 : 1 ≤ st.e := by omega
      have hne1 : 1 ≤ st.ne := by omega
      have hneN : st.ne - 1 < newItems.length := by
        have := inv.hne; omega
      have heL : st.e - 1 < items.length := by
        have := inv.he; omega
      refine ih _ (suffixInv_mk items newItems mapped disposers start _ _ _ _ _
        (by omega) (by omega) (by have := inv.he; omega)
        (by have := inv.hne; omega)
        (by have h1 := inv.hbal; have h2 := inv.he; have h3 := inv.hne; omega)
        (by simpa using inv.htemp_len) (by simpa using inv.htempD_len)
        (by simpa using inv.hdisp_len) ?_ ?_ ?_ ?_)
        (show st.e - 1 ≤ start + fuel by omega)
      · -- temp characterization
        intro j hj
        by_cases hj2 : j = st.ne - 1
        · subst hj2
          rw [getD_set_self _ _ _ _ (by rw [inv.htemp_len]; exact hneN)]
          rw [if_pos (Nat.le_refl _)]
          have : st.ne - 1 - (st.ne - 1) + (st.e - 1) = st.e - 1 := by omega
          rw [this]
        · rw [getD_set_ne _ _ _ (fun hh => hj2 hh.symm), inv.htemp j hj]
          rcases Nat.lt_or_ge j st.ne with hlt | hge2
          · rw [if_neg (by omega), if_neg (by omega)]
          · rw [if_pos (by omega), if_pos (by omega)]
            have : j - st.ne + st.e = j - (st.ne - 1) + (st.e - 1) := by omega
            rw [this]
      · -- tempD characterization
        intro j hj
        by_cases hj2 : j = st.ne - 1
        · subst hj2
          rw [getD_set_self _ _ _ _ (by rw [inv.htempD_len]; exact hneN)]
          rw [if_pos (Nat.le_refl _)]
          rw [inv.hdisp _ heL, if_neg (by omega)]
          have : st.ne - 1 - (st.ne - 1) + (st.e - 1) = st.e - 1 := by omega
          rw [this]
        · rw [getD_set_ne _ _ _ (fun hh => hj2 hh.symm), inv.htempD j hj]
          rcases Nat.lt_or_ge j st.ne with hlt | hge2
          · rw [if_neg (by omega), if_neg (by omega)]
          · rw [if_pos (by omega), if_pos (by omega)]
            have : j - st.ne + st.e = j - (st.ne - 1) + (st.e - 1) := by omega
            rw [this]
      · -- disposers characterization
        intro i hi
        by_cases hi2 : i = st.e - 1
        · subst hi2
          rw [getD_set_self _ _ _ _ (by rw [inv.hdisp_len]; exact heL)]
          rw [if_pos (Nat.le_refl _)]
        · rw [getD_set_ne _ _ _ (fun hh => hi2 hh.symm), inv.hdisp i hi]
          rcases Nat.lt_or_ge i st.e with hlt | hge2
          · rw [if_neg (by omega), if_neg (by omega)]
          · rw [if_pos (by omega), if_pos (by omega)]
      · -- mirrored-suffix equality
        intro j h1 h2
        by_cases hj2 : j = st.ne - 1
        · subst hj2
          have : st.ne - 1 - (st.ne - 1) + (st.e - 1) = st.e - 1 := by omega
          rw [this]
          exact hgeq.symm
        · have : j - (st.ne - 1) + (st.e - 1) = j - st.ne + st.e := by omega
          rw [this]
          exact inv.heq j (by omega) h2
    · exact inv

theorem rcSuffix_inv [DecidableEq T] [Inhabited T] [Inhabited U]
    (items newItems : List T) (mapped : List U) (disposers : List (Option Nat))
    (hd : disposers.length = items.length) :
    SuffixInv items newItems mapped disposers (rcStart items newItems)
      (rcSuffix items newItems mapped disposers) := by
  have hle := firstDiffIdx_le items newItems
  exact suffixLoop_spec items newItems mapped disposers _ items.length _
    (suffixInv_init items newItems mapped disposers _ hd
      (by unfold rcStart; omega) (by unfold rcStart; omega))
    (show items.length ≤ rcStart items newItems + items.length by omega)

/-! Key-index construction invariant (map.rs lines 87-97): the key map
converges on the lowest index in range for each key, and the
next-occurrence table records the least strictly-larger occurrence. -/

theorem buildIdx_spec [DecidableEq K] [Inhabited T]
    (kf : T → K) (ni : List T) (start n0 : Nat) :
    ∀ (n : Nat) (m : List (K × Nat)) (nxt : List (Option Nat)),
      n ≤ n0 → nxt.length = n0 →
      (∀ k, klookup m k = leastOccFrom kf ni k (start + n) (start + n0)) →
      (∀ k, klookup (buildIdx kf ni start n (m, nxt)).1 k =
        leastOccFrom kf ni k start (start + n0)) ∧
      (buildIdx kf ni start n (m, nxt)).2.length = n0 ∧
      (∀ t, t < n → (buildIdx kf ni start n (m, nxt)).2.getD t none =
        leastOccFrom kf ni (kf (ni.getD (start + t) default)) (start + t + 1)
          (start + n0)) ∧
      (∀ t, n ≤ t → (buildIdx kf ni start n (m, nxt)).2.getD t none =
        nxt.getD t none) := by
  intro n
  induction n with
  | zero =>
    intro m nxt _ hlen hacc
    refine ⟨fun k => ?_, hlen, fun t ht => by omega, fun t _ => rfl⟩
    simpa using hacc k
  | succ n ih =>
    intro m nxt hn hlen hacc
    simp only [buildIdx]
    have hidx : start + n - start = n := by omega
    rw [hidx]
    have hlt : start + n < start + n0 := by omega
    have hacc' : ∀ k', klookup
        (kinsert m (kf (ni.getD (start + n) default)) (start + n)) k' =
        leastOccFrom kf ni k' (start + n) (start + n0) := by
      intro k'
      rw [klookup_kinsert, leastOccFrom_step kf ni k' hlt]
      by_cases hk : kf (ni.getD (start + n) default) = k'
      · rw [if_pos hk, if_pos hk]
      · rw [if_neg hk, if_neg hk]
        exact hacc k'
    obtain ⟨r1, r2, r3, r4⟩ := ih
      (kinsert m (kf (ni.getD (start + n) default)) (start + n))
      (nxt.set n (klookup m (kf (ni.getD (start + n) default))))
      (by omega) (by simpa using hlen) hacc'
    refine ⟨r1, r2, ?_, ?_⟩
    · intro t ht
      rcases Nat.lt_or_ge t n with h | h
      · exact r3 t h
      · have ht' : t = n := by omega
        subst ht'
        rw [r4 t (Nat.le_refl _),
          getD_set_self nxt t _ none (by omega)]
        exact hacc (kf (ni.getD (start + t) default))
    · intro t ht
      rw [r4 t (by omega), getD_set_ne nxt _ none (by omega)]

theorem rcBuild_spec [DecidableEq T] [DecidableEq K] [Inhabited T] [Inhabited U]
    (kf : T → K) (items newItems : List T) (mapped : List U)
    (disposers : List (Option Nat)) (hd : disposers.length = items.length) :
    (∀ k, klookup (rcBuild kf items newItems mapped disposers).1 k =
      leastOccFrom kf newItems k (rcStart items newItems)
        (rcSuffix items newItems mapped disposers).ne) ∧
    (∀ t, rcStart items newItems + t <
        (rcSuffix items newItems mapped disposers).ne →
      (rcBuild kf items newItems mapped disposers).2.getD t none =
        leastOccFrom kf newItems
          (kf (newItems.getD (rcStart items newItems + t) default))
          (rcStart items newItems + t + 1)
          (rcSuffix items newItems mapped disposers).ne) ∧
    (∀ t, (rcSuffix items newItems mapped disposers).ne ≤
        rcStart items newItems + t →
      (rcBuild kf items newItems mapped disposers).2.getD t none = none) := by
  have inv := rcSuffix_inv items newItems mapped disposers hd
  have hsne := inv.hstart_ne
  have h0 : rcStart items newItems +
      ((rcSuffix items newItems mapped disposers).ne - rcStart items newItems) =
      (rcSuffix items newItems mapped disposers).ne := by omega
  obtain ⟨r1, r2, r3, r4⟩ := buildIdx_spec kf newItems (rcStart items newItems)
    ((rcSuffix items newItems mapped disposers).ne - rcStart items newItems)
    ((rcSuffix items newItems mapped disposers).ne - rcStart items newItems)
    [] (List.replicate
      ((rcSuffix items newItems mapped disposers).ne - rcStart items newItems)
      none)
    (Nat.le_refl _) (by simp)
    (fun k => by rw [klookup_nil, leastOccFrom_stop kf newItems k (Nat.le_refl _)])
  refine ⟨fun k => ?_, fun t ht => ?_, fun t ht => ?_⟩
  · rw [show (rcBuild kf items newItems mapped disposers).1 =
      (buildIdx kf newItems (rcStart items newItems) _ (_, _)).1 from rfl, r1 k, h0]
  · rw [show (rcBuild kf items newItems mapped disposers).2 =
      (buildIdx kf newItems (rcStart items newItems) _ (_, _)).2 from rfl,
      r3 t (by omega), h0]
  · rw [show (rcBuild kf items newItems mapped disposers).2 =
      (buildIdx kf newItems (rcStart items newItems) _ (_, _)).2 from rfl,
      r4 t (by omega), getD_replicate, if_neg (by omega)]

/-! Match-pass invariant (map.rs lines 101-112). -/

theorem matchStep_found [DecidableEq K] [Inhabited T] [Inhabited U]
    (kf : T → K) (items : List T) (mapped : List U) (start : Nat)
    (nxt : List (Option Nat)) (i : Nat) (st : MatchSt K U) {j0 : Nat}
    (hcase : klookup st.m (kf (items.getD i default)) = some j0)
    (hnxt : nxt.getD (j0 - start) none = none) :
    matchStep kf items mapped start nxt i st =
      { temp := st.temp.set j0 (some (mapped.getD i default))
        tempD := st.tempD.set j0 (st.disposers.getD i none)
        disposers := st.disposers.set i none
        m := st.m
        sync := st.sync } := by
  simp only [matchStep, hcase, hnxt]

theorem matchStep_notfound [DecidableEq K] [Inhabited T] [Inhabited U]
    (kf : T → K) (items : List T) (mapped : List U) (start : Nat)
    (nxt : List (Option Nat)) (i : Nat) (st : MatchSt K U)
    (hcase : klookup st.m (kf (items.getD i default)) = none) :
    matchStep kf items mapped start nxt i st =
      { temp := st.temp
        tempD := st.tempD
        disposers := st.disposers.set i none
        m := st.m
        sync := st.sync ++ (st.disposers.getD i none).toList } := by
  simp only [matchStep, hcase]

theorem matchPass_spec [DecidableEq K] [Inhabited T] [Inhabited U]
    (kf : T → K) (items : List T) (mapped : List U) (start : Nat)
    (nxt : List (Option Nat)) (Hnxt : ∀ t, nxt.getD t none = none) :
    ∀ (n i : Nat) (st : MatchSt K U),
      (∀ i1 i2 j, i ≤ i1 → i1 < i + n → i ≤ i2 → i2 < i + n →
        klookup st.m (kf (items.getD i1 default)) = some j →
        klookup st.m (kf (items.getD i2 default)) = some j → i1 = i2) →
      (∀ i1 j, i ≤ i1 → i1 < i + n →
        klookup st.m (kf (items.getD i1 default)) = some j →
        j < st.temp.length ∧ j < st.tempD.length) →
      (matchPass kf items mapped start nxt n i st).m = st.m ∧
      ((matchPass kf items mapped start nxt n i st).temp.length = st.temp.length ∧
        (matchPass kf items mapped start nxt n i st).tempD.length = st.tempD.length ∧
        (matchPass kf items mapped start nxt n i st).disposers.length =
          st.disposers.length) ∧
      (∀ i1 j, i ≤ i1 → i1 < i + n →
        klookup st.m (kf (items.getD i1 default)) = some j →
        (matchPass kf items mapped start nxt n i st).temp.getD j none =
          some (mapped.getD i1 default) ∧
        (matchPass kf items mapped start nxt n i st).tempD.getD j none =
          st.disposers.getD i1 none) ∧
      (∀ j, (∀ i1, i ≤ i1 → i1 < i + n →
          klookup st.m (kf (items.getD i1 default)) ≠ some j) →
        (matchPass kf items mapped start nxt n i st).temp.getD j none =
          st.temp.getD j none ∧
        (matchPass kf items mapped start nxt n i st).tempD.getD j none =
          st.tempD.getD j none) ∧
      (∀ i1, i ≤ i1 → i1 < i + n →
        (matchPass kf items mapped start nxt n i st).disposers.getD i1 none =
          none) ∧
      (∀ i1, i1 < i ∨ i + n ≤ i1 →
        (matchPass kf items mapped start nxt n i st).disposers.getD i1 none =
          st.disposers.getD i1 none) ∧
      (matchPass kf items mapped start nxt n i st).sync =
        st.sync ++ (List.range' i n).filterMap (fun i1 =>
          match klookup st.m (kf (items.getD i1 default)) with
          | none => st.disposers.getD i1 none
          | some _ => none) := by
  intro n
  induction n with
  | zero =>
    intro i st _ _
    exact ⟨rfl, ⟨rfl, rfl, rfl⟩, fun i1 j h1 h2 _ => by omega,
      fun j _ => ⟨rfl, rfl⟩, fun i1 h1 h2 => by omega,
      fun i1 _ => rfl, by simp [matchPass]⟩
  | succ n ih =>
    intro i st Hinj Hb
    simp only [matchPass]
    cases hcase : klookup st.m (kf (items.getD i default)) with
    | some j0 =>
      rw [matchStep_found kf items mapped start nxt i st hcase (Hnxt _)]
      have hj0b := Hb i j0 (Nat.le_refl _) (by omega) hcase
      obtain ⟨c1, c2, c3, c4, c5, c6, c7⟩ := ih (i + 1)
        { temp := st.temp.set j0 (some (mapped.getD i default))
          tempD := st.tempD.set j0 (st.disposers.getD i none)
          disposers := st.disposers.set i none
          m := st.m
          sync := st.sync }
        (fun i1 i2 j h1 h2 h3 h4 ha hb =>
          Hinj i1 i2 j (by omega) (by omega) (by omega) (by omega) ha hb)
        (fun i1 j h1 h2 ha => by
          have := Hb i1 j (by omega) (by omega) ha
          simpa using this)
      dsimp only at c1 c2 c3 c4 c5 c6 c7
      refine ⟨c1, ?_, ?_, ?_, ?_, ?_, ?_⟩
      · simpa using c2
      · intro i1 j h1 h2 hk
        by_cases hi1 : i1 = i
        · have hj0 : j0 = j := by
            rw [hi1, hcase] at hk
            exact Option.some.inj hk
          have hnw : ∀ i2, i + 1 ≤ i2 → i2 < i + 1 + n →
              klookup st.m (kf (items.getD i2 default)) ≠ some j := by
            intro i2 hle hlt hk2
            have := Hinj i2 i j (by omega) (by omega) (by omega) (by omega)
              hk2 (by rw [hcase, hj0])
            omega
          obtain ⟨ht, htD⟩ := c4 j hnw
          rw [ht, htD, hi1, ← hj0, getD_set_self _ _ _ _ hj0b.1,
            getD_set_self _ _ _ _ hj0b.2]
          exact ⟨rfl, rfl⟩
        · have hle : i + 1 ≤ i1 := by omega
          obtain ⟨ht, htD⟩ := c3 i1 j hle (by omega) hk
          rw [ht, htD, getD_set_ne _ _ _ (fun hh => hi1 hh.symm)]
          exact ⟨rfl, rfl⟩
      · intro j hno
        have hj0 : j0 ≠ j := by
          intro hh
          exact hno i (Nat.le_refl _) (by omega) (hh ▸ hcase)
        obtain ⟨ht, htD⟩ := c4 j (fun i1 h1 h2 => hno i1 (by omega) (by omega))
        rw [ht, htD, getD_set_ne _ _ _ hj0, getD_set_ne _ _ _ hj0]
        exact ⟨rfl, rfl⟩
      · intro i1 h1 h2
        by_cases hi1 : i1 = i
        · subst hi1
          rw [c6 i1 (Or.inl (by omega))]
          rcases Nat.lt_or_ge i1 st.disposers.length with h | h
          · rw [getD_set_self _ _ _ _ h]
          · rw [getD_of_len_le _ (by simpa using h)]
        · exact c5 i1 (by omega) (by omega)
      · intro i1 h1
        rw [c6 i1 (by omega), getD_set_ne _ _ _ (by omega)]
      · rw [c7, List.range'_succ]
        rw [List.filterMap_cons]
        have hg : (match klookup st.m (kf (items.getD i default)) with
            | none => st.disposers.getD i none
            | some _ => none) = (none : Option Nat) := by rw [hcase]
        rw [hg]
        congr 1
        apply List.filterMap_congr
        intro x hx
        have hxge : i + 1 ≤ x := (List.mem_range'_1.1 hx).1
        rw [getD_set_ne _ _ _ (by omega)]
    | none =>
      rw [matchStep_notfound kf items mapped start nxt i st hcase]
      obtain ⟨c1, c2, c3, c4, c5, c6, c7⟩ := ih (i + 1)
        { temp := st.temp
          tempD := st.tempD
          disposers := st.disposers.set i none
          m := st.m
          sync := st.sync ++ (st.disposers.getD i none).toList }
        (fun i1 i2 j h1 h2 h3 h4 ha hb =>
          Hinj i1 i2 j (by omega) (by omega) (by omega) (by omega) ha hb)
        (fun i1 j h1 h2 ha => Hb i1 j (by omega) (by omega) ha)
      dsimp only at c1 c2 c3 c4 c5 c6 c7
      refine ⟨c1, ?_, ?_, ?_, ?_, ?_, ?_⟩
      · simpa using c2
      · intro i1 j h1 h2 hk
        by_cases hi1 : i1 = i
        · subst hi1
          rw [hcase] at hk
          exact absurd hk (by simp)
        · have hle : i + 1 ≤ i1 := by omega
          obtain ⟨ht, htD⟩ := c3 i1 j hle (by omega) hk
          rw [ht, htD, getD_set_ne _ _ _ (fun hh => hi1 hh.symm)]
          exact ⟨rfl, rfl⟩
      · intro j hno
        exact c4 j (fun i1 h1 h2 => hno i1 (by omega) (by omega))
      · intro i1 h1 h2
        by_cases hi1 : i1 = i
        · subst hi1
          rw [c6 i1 (Or.inl (by omega))]
          rcases Nat.lt_or_ge i1 st.disposers.length with h | h
          · rw [getD_set_self _ _ _ _ h]
          · rw [getD_of_len_le _ (by simpa using h)]
        · exact c5 i1 (by omega) (by omega)
      · intro i1 h1
        rw [c6 i1 (by omega), getD_set_ne _ _ _ (by omega)]
      · rw [c7, List.range'_succ]
        rw [List.filterMap_cons]
        have hg : (match klookup st.m (kf (items.getD i default)) with
            | none => st.disposers.getD i none
            | some _ => none) = st.disposers.getD i none := by rw [hcase]
        rw [hg]
        have hcg : (List.range' (i + 1) n).filterMap (fun i1 =>
            match klookup st.m (kf (items.getD i1 default)) with
            | none => (st.disposers.set i none).getD i1 none
            | some _ => none) = (List.range' (i + 1) n).filterMap (fun i1 =>
            match klookup st.m (kf (items.getD i1 default)) with
            | none => st.disposers.getD i1 none
            | some _ => none) := by
          apply List.filterMap_congr
          intro x hx
          have hxge : i + 1 ≤ x := (List.mem_range'_1.1 hx).1
          rw [getD_set_ne _ _ _ (by omega)]
        rw [hcg]
        cases hdi : st.disposers.getD i none with
        | none => simp
        | some s => simp

/-! Fill-pass invariant (map.rs lines 116-141). -/

theorem fillPass_spec [Inhabited T] [Inhabited U]
    (mf : Nat → T → U) (newItems : List T) :
    ∀ (n j : Nat) (st : FillSt U),
      st.disposers.length = st.mapped.length →
      j ≤ st.mapped.length →
      (fillPass mf newItems n j st).mapped.length =
        max st.mapped.length (j + n) ∧
      (fillPass mf newItems n j st).disposers.length =
        (fillPass mf newItems n j st).mapped.length ∧
      (∀ t, t < j ∨ j + n ≤ t →
        (fillPass mf newItems n j st).mapped.getD t default =
          st.mapped.getD t default ∧
        (fillPass mf newItems n j st).disposers.getD t none =
          st.disposers.getD t none) ∧
      (∀ t, j ≤ t → t < j + n →
        (match st.temp.getD t none with
         | some v =>
             (fillPass mf newItems n j st).mapped.getD t default = v ∧
             (fillPass mf newItems n j st).disposers.getD t none =
               st.tempD.getD t none
         | none => ∃ c, st.counter ≤ c ∧
             (fillPass mf newItems n j st).mapped.getD t default =
               mf c (newItems.getD t default) ∧
             (fillPass mf newItems n j st).disposers.getD t none = some c)) ∧
      st.counter ≤ (fillPass mf newItems n j st).counter ∧
      (∀ c ∈ (fillPass mf newItems n j st).created,
        c ∈ st.created ∨ st.counter ≤ c) := by
  intro n
  induction n with
  | zero =>
    intro j st Hlen Hj
    refine ⟨by simp [fillPass]; omega, by simp [fillPass, Hlen],
      fun t _ => ⟨rfl, rfl⟩, fun t h1 h2 => by omega, Nat.le_refl _,
      fun c hc => Or.inl hc⟩
  | succ n ih =>
    intro j st Hlen Hj
    simp only [fillPass]
    cases htj : st.temp.getD j none with
    | some v =>
      by_cases hge : j ≥ st.mapped.length
      · -- pull, push branch (map.rs lines 119-121)
        have hjm : j = st.mapped.length := by omega
        have hjd : j = st.disposers.length := by omega
        have hstep : fillStep mf newItems j st =
            { st with
                mapped := st.mapped ++ [v]
                disposers := st.disposers ++ [st.tempD.getD j none]
                tempD := st.tempD.set j none } := by
          simp only [fillStep, htj, if_pos hge]
        rw [hstep]
        obtain ⟨d1, d2, d4, d5, d6, d7⟩ := ih (j + 1)
          { st with
              mapped := st.mapped ++ [v]
              disposers := st.disposers ++ [st.tempD.getD j none]
              tempD := st.tempD.set j none }
          (by simp [Hlen]) (by simp; omega)
        dsimp only at d1 d2 d4 d5 d6 d7
        refine ⟨?_, d2, ?_, ?_, d6, d7⟩
        · rw [d1]; simp only [List.length_append, List.length_singleton]; omega
        · intro t ht
          obtain ⟨hm, hd⟩ := d4 t (by omega)
          constructor
          · rw [hm]
            rcases ht with ht | ht
            · rw [getD_append_left _ _ _ (by omega)]
            · rw [getD_of_len_le _ (by simp; omega),
                getD_of_len_le _ (by omega)]
          · rw [hd]
            rcases ht with ht | ht
            · rw [getD_append_left _ _ _ (by omega)]
            · rw [getD_of_len_le _ (by simp; omega),
                getD_of_len_le _ (by omega)]
        · intro t h1 h2
          by_cases htj2 : t = j
          · subst htj2
            rw [htj]
            obtain ⟨hm, hd⟩ := d4 t (by omega)
            constructor
            · rw [hm, hjm, getD_concat_self]
            · rw [hd, hjd, getD_concat_self]
          · have h1' : j + 1 ≤ t := by omega
            have d5t := d5 t h1' (by omega)
            cases htt : st.temp.getD t none with
            | some v2 =>
              rw [htt] at d5t
              refine ⟨d5t.1, ?_⟩
              rw [d5t.2, getD_set_ne _ _ _ (fun hh => htj2 hh.symm)]
            | none =>
              rw [htt] at d5t
              exact d5t
      · -- pull, in-place branch (map.rs lines 122-125)
        have hstep : fillStep mf newItems j st =
            { st with
                mapped := st.mapped.set j v
                disposers := st.disposers.set j (st.tempD.getD j none)
                tempD := st.tempD.set j none } := by
          simp only [fillStep, htj, if_neg hge]
        rw [hstep]
        obtain ⟨d1, d2, d4, d5, d6, d7⟩ := ih (j + 1)
          { st with
              mapped := st.mapped.set j v
              disposers := st.disposers.set j (st.tempD.getD j none)
              tempD := st.tempD.set j none }
          (by simp [Hlen]) (by simp; omega)
        dsimp only at d1 d2 d4 d5 d6 d7
        refine ⟨?_, d2, ?_, ?_, d6, d7⟩
        · rw [d1]; simp only [List.length_set]; omega
        · intro t ht
          obtain ⟨hm, hd⟩ := d4 t (by omega)
          rw [hm, hd, getD_set_ne _ _ _ (by omega),
            getD_set_ne _ _ _ (by omega)]
          exact ⟨rfl, rfl⟩
        · intro t h1 h2
          by_cases htj2 : t = j
          · subst htj2
            rw [htj]
            obtain ⟨hm, hd⟩ := d4 t (by omega)
            constructor
            · rw [hm, getD_set_self _ _ _ _ (by omega)]
            · rw [hd, getD_set_self _ _ _ _ (by omega)]
          · have d5t := d5 t (by omega) (by omega)
            cases htt : st.temp.getD t none with
            | some v2 =>
              rw [htt] at d5t
              refine ⟨d5t.1, ?_⟩
              rw [d5t.2, getD_set_ne _ _ _ (fun hh => htj2 hh.symm)]
            | none =>
              rw [htt] at d5t
              exact d5t
    | none =>
      by_cases hgt : st.mapped.length > j
      · -- create, in-place branch (map.rs lines 133-135)
        have hstep : fillStep mf newItems j st =
            { st with
                mapped := st.mapped.set j (mf st.counter (newItems.getD j default))
                disposers := st.disposers.set j (some st.counter)
                counter := st.counter + 1
                created := st.created ++ [st.counter] } := by
          simp only [fillStep, htj, if_pos hgt]
        rw [hstep]
        obtain ⟨d1, d2, d4, d5, d6, d7⟩ := ih (j + 1)
          { st with
              mapped := st.mapped.set j (mf st.counter (newItems.getD j default))
              disposers := st.disposers.set j (some st.counter)
              counter := st.counter + 1
              created := st.created ++ [st.counter] }
          (by simp [Hlen]) (by simp; omega)
        dsimp only at d1 d2 d4 d5 d6 d7
        refine ⟨?_, d2, ?_, ?_, by omega, ?_⟩
        · rw [d1]; simp only [List.length_set]; omega
        · intro t ht
          obtain ⟨hm, hd⟩ := d4 t (by omega)
          rw [hm, hd, getD_set_ne _ _ _ (by omega),
            getD_set_ne _ _ _ (by omega)]
          exact ⟨rfl, rfl⟩
        · intro t h1 h2
          by_cases htj2 : t = j
          · subst htj2
            rw [htj]
            obtain ⟨hm, hd⟩ := d4 t (by omega)
            refine ⟨st.counter, Nat.le_refl _, ?_, ?_⟩
            · rw [hm, getD_set_self _ _ _ _ hgt]
            · rw [hd, getD_set_self _ _ _ _ (by omega)]
          · have d5t := d5 t (by omega) (by omega)
            cases htt : st.temp.getD t none with
            | some v2 =>
              rw [htt] at d5t
              exact ⟨d5t.1, d5t.2⟩
            | none =>
              rw [htt] at d5t
              obtain ⟨c, hc1, hc2, hc3⟩ := d5t
              exact ⟨c, by omega, hc2, hc3⟩
        · intro c hc
          rcases d7 c hc with hcin | hcge
          · rcases List.mem_append.1 hcin with h | h
            · exact Or.inl h
            · simp only [List.mem_singleton] at h
              exact Or.inr (by omega)
          · exact Or.inr (by omega)
      · -- create, push branch (map.rs lines 136-139)
        have hjm : j = st.mapped.length := by omega
        have hjd : j = st.disposers.length := by omega
        have hstep : fillStep mf newItems j st =
            { st with
                mapped := st.mapped ++ [mf st.counter (newItems.getD j default)]
                disposers := st.disposers ++ [some st.counter]
                counter := st.counter + 1
                created := st.created ++ [st.counter] } := by
          simp only [fillStep, htj, if_neg hgt]
        rw [hstep]
        obtain ⟨d1, d2, d4, d5, d6, d7⟩ := ih (j + 1)
          { st with
              mapped := st.mapped ++ [mf st.counter (newItems.getD j default)]
              disposers := st.disposers ++ [some st.counter]
              counter := st.counter + 1
              created := st.created ++ [st.counter] }
          (by simp [Hlen]) (by simp; omega)
        dsimp only at d1 d2 d4 d5 d6 d7
        refine ⟨?_, d2, ?_, ?_, by omega, ?_⟩
        · rw [d1]; simp only [List.length_append, List.length_singleton]; omega
        · intro t ht
          obtain ⟨hm, hd⟩ := d4 t (by omega)
          constructor
          · rw [hm]
            rcases ht with ht | ht
            · rw [getD_append_left _ _ _ (by omega)]
            · rw [getD_of_len_le _ (by simp; omega),
                getD_of_len_le _ (by omega)]
          · rw [hd]
            rcases ht with ht | ht
            · rw [getD_append_left _ _ _ (by omega)]
            · rw [getD_of_len_le _ (by simp; omega),
                getD_of_len_le _ (by omega)]
        · intro t h1 h2
          by_cases htj2 : t = j
          · subst htj2
            rw [htj]
            obtain ⟨hm, hd⟩ := d4 t (by omega)
            refine ⟨st.counter, Nat.le_refl _, ?_, ?_⟩
            · rw [hm, hjm, getD_concat_self]
            · rw [hd, hjd, getD_concat_self]
          · have d5t := d5 t (by omega) (by omega)
            cases htt : st.temp.getD t none with
            | some v2 =>
              rw [htt] at d5t
              exact ⟨d5t.1, d5t.2⟩
            | none =>
              rw [htt] at d5t
              obtain ⟨c, hc1, hc2, hc3⟩ := d5t
              exact ⟨c, by omega, hc2, hc3⟩
        · intro c hc
          rcases d7 c hc with hcin | hcge
          · rcases List.mem_append.1 hcin with h | h
            · exact Or.inl h
            · simp only [List.mem_singleton] at h
              exact Or.inr (by omega)
          · exact Or.inr (by omega)

/-! Corollaries of the key-map characterization. -/

theorem rcBuild_lookup_bounds [DecidableEq T] [DecidableEq K] [Inhabited T]
    [Inhabited U]
    (kf : T → K) (items newItems : List T) (mapped : List U)
    (disposers : List (Option Nat)) (hd : disposers.length = items.length)
    {k : K} {j : Nat}
    (h : klookup (rcBuild kf items newItems mapped disposers).1 k = some j) :
    rcStart items newItems ≤ j ∧
    j < (rcSuffix items newItems mapped disposers).ne ∧
    kf (newItems.getD j default) = k := by
  have inv := rcSuffix_inv items newItems mapped disposers hd
  have hsne := inv.hstart_ne
  obtain ⟨r1, _, _⟩ := rcBuild_spec kf items newItems mapped disposers hd
  rw [r1] at h
  exact leastOccFrom_bounds kf newItems k
    ((rcSuffix items newItems mapped disposers).ne - rcStart items newItems)
    (rcStart items newItems) j (by omega) h

theorem rcBuild_lookup_self [DecidableEq T] [DecidableEq K] [Inhabited T]
    [Inhabited U]
    (kf : T → K) (items newItems : List T) (mapped : List U)
    (disposers : List (Option Nat)) (hd : disposers.length = items.length)
    (hB : (newItems.map kf).Nodup)
    {j : Nat} (hj1 : rcStart items newItems ≤ j)
    (hj2 : j < (rcSuffix items newItems mapped disposers).ne) :
    klookup (rcBuild kf items newItems mapped disposers).1
      (kf (newItems.getD j default)) = some j := by
  have inv := rcSuffix_inv items newItems mapped disposers hd
  have hsne := inv.hstart_ne
  have hneN := inv.hne
  obtain ⟨r1, _, _⟩ := rcBuild_spec kf items newItems mapped disposers hd
  rw [r1]
  cases h : leastOccFrom kf newItems (kf (newItems.getD j default))
      (rcStart items newItems)
      (rcSuffix items newItems mapped disposers).ne with
  | none =>
    exact absurd rfl (leastOccFrom_none kf newItems _
      ((rcSuffix items newItems mapped disposers).ne - rcStart items newItems)
      (rcStart items newItems) (by omega) h j hj1 hj2)
  | some j2 =>
    obtain ⟨hb1, hb2, hb3⟩ := leastOccFrom_bounds kf newItems _
      ((rcSuffix items newItems mapped disposers).ne - rcStart items newItems)
      (rcStart items newItems) j2 (by omega) h
    have hj2j : j2 = j :=
      nodup_keys_inj kf hB (by omega) (by omega) hb3
    rw [hj2j]

theorem rcBuild_lookup_none_of [DecidableEq T] [DecidableEq K] [Inhabited T]
    [Inhabited U]
    (kf : T → K) (items newItems : List T) (mapped : List U)
    (disposers : List (Option Nat)) (hd : disposers.length = items.length)
    {k : K}
    (hk : ∀ j, rcStart items newItems ≤ j →
      j < (rcSuffix items newItems mapped disposers).ne →
      kf (newItems.getD j default) ≠ k) :
    klookup (rcBuild kf items newItems mapped disposers).1 k = none := by
  cases h : klookup (rcBuild kf items newItems mapped disposers).1 k with
  | none => rfl
  | some j2 =>
    obtain ⟨hb1, hb2, hb3⟩ :=
      rcBuild_lookup_bounds kf items newItems mapped disposers hd h
    exact absurd hb3 (hk j2 hb1 hb2)

theorem rcBuild_nxt_none [DecidableEq T] [DecidableEq K] [Inhabited T]
    [Inhabited U]
    (kf : T → K) (items newItems : List T) (mapped : List U)
    (disposers : List (Option Nat)) (hd : disposers.length = items.length)
    (hB : (newItems.map kf).Nodup) :
    ∀ t, (rcBuild kf items newItems mapped disposers).2.getD t none = none := by
  intro t
  have inv := rcSuffix_inv items newItems mapped disposers hd
  have hneN := inv.hne
  obtain ⟨_, r2, r3⟩ := rcBuild_spec kf items newItems mapped disposers hd
  rcases Nat.lt_or_ge (rcStart items newItems + t)
      (rcSuffix items newItems mapped disposers).ne with h | h
  · rw [r2 t h]
    cases hh : leastOccFrom kf newItems
        (kf (newItems.getD (rcStart items newItems + t) default))
        (rcStart items newItems + t + 1)
        (rcSuffix items newItems mapped disposers).ne with
    | none => rfl
    | some j2 =>
      obtain ⟨hb1, hb2, hb3⟩ := leastOccFrom_bounds kf newItems _
        ((rcSuffix items newItems mapped disposers).ne -
          (rcStart items newItems + t + 1))
        (rcStart items newItems + t + 1) j2 (by omega) hh
      have := nodup_keys_inj kf hB (by omega) (by omega) hb3
      omega
  · exact r3 t h

/-! Partner-position lemmas: where the element carrying a given key sits
relative to the prefix/suffix/diff windows, under unique keys. -/

theorem prefix_partner [DecidableEq T] [Inhabited T] (kf : T → K)
    (items newItems : List T)
    (hA : (items.map kf).Nodup)
    {i j : Nat} (hi : i < items.length) (hj : j < rcStart items newItems)
    (hk : kf (items.getD i default) = kf (newItems.getD j default)) : i = j := by
  have hle := firstDiffIdx_le items newItems
  have heq := firstDiffIdx_prefix_eq items newItems j hj
  apply nodup_keys_inj kf hA hi (by unfold rcStart at hj; omega)
  rw [hk, heq]

theorem suffix_partner [DecidableEq T] [Inhabited T] [Inhabited U]
    (kf : T → K) (items newItems : List T) (mapped : List U)
    (disposers : List (Option Nat)) (hd : disposers.length = items.length)
    (hA : (items.map kf).Nodup)
    {i j : Nat} (hi : i < items.length)
    (hj1 : (rcSuffix items newItems mapped disposers).ne ≤ j)
    (hj2 : j < newItems.length)
    (hk : kf (items.getD i default) = kf (newItems.getD j default)) :
    i = j - (rcSuffix items newItems mapped disposers).ne +
      (rcSuffix items newItems mapped disposers).e := by
  have inv := rcSuffix_inv items newItems mapped disposers hd
  have hbal := inv.hbal
  have hne := inv.hne
  have he := inv.he
  have heq := inv.heq j hj1 hj2
  apply nodup_keys_inj kf hA hi (by omega)
  rw [hk, heq]

theorem new_partner_in_range [DecidableEq T] [Inhabited T] [Inhabited U]
    (kf : T → K) (items newItems : List T) (mapped : List U)
    (disposers : List (Option Nat)) (hd : disposers.length = items.length)
    (hA : (items.map kf).Nodup) (hB : (newItems.map kf).Nodup)
    {i j : Nat}
    (hi1 : rcStart items newItems ≤ i)
    (hi2 : i < (rcSuffix items newItems mapped disposers).e)
    (hj : j < newItems.length)
    (hk : kf (items.getD i default) = kf (newItems.getD j default)) :
    rcStart items newItems ≤ j ∧
    j < (rcSuffix items newItems mapped disposers).ne := by
  have inv := rcSuffix_inv items newItems mapped disposers hd
  have he := inv.he
  constructor
  · by_contra hc
    have hjlt : j < rcStart items newItems := by omega
    have := prefix_partner kf items newItems hA (by omega) hjlt hk
    omega
  · by_contra hc
    have hjge : (rcSuffix items newItems mapped disposers).ne ≤ j := by omega
    have := suffix_partner kf items newItems mapped disposers hd hA
      (by omega) hjge hj hk
    have hbal := inv.hbal
    have hne := inv.hne
    omega

theorem old_partner_in_range [DecidableEq T] [Inhabited T] [Inhabited U]
    (kf : T → K) (items newItems : List T) (mapped : List U)
    (disposers : List (Option Nat)) (hd : disposers.length = items.length)
    (hA : (items.map kf).Nodup) (hB : (newItems.map kf).Nodup)
    {i j : Nat}
    (hi : i < items.length)
    (hj1 : rcStart items newItems ≤ j)
    (hj2 : j < (rcSuffix items newItems mapped disposers).ne)
    (hk : kf (items.getD i default) = kf (newItems.getD j default)) :
    rcStart items newItems ≤ i ∧
    i < (rcSuffix items newItems mapped disposers).e := by
  have inv := rcSuffix_inv items newItems mapped disposers hd
  have he := inv.he
  have hne := inv.hne
  have hbal := inv.hbal
  constructor
  · by_contra hc
    have hilt : i < rcStart items newItems := by omega
    -- then i is a prefix position, so newItems carries the key twice
    have heq := firstDiffIdx_prefix_eq items newItems i
      (by unfold rcStart at hilt; exact hilt)
    have hk2 : kf (newItems.getD i default) = kf (newItems.getD j default) := by
      rw [← heq]; exact hk
    have := nodup_keys_inj kf hB
      (by have hle := firstDiffIdx_le items newItems; unfold rcStart at hilt; omega)
      (by omega) hk2
    omega
  · by_contra hc
    have hige : (rcSuffix items newItems mapped disposers).e ≤ i := by omega
    -- then i is a suffix position, mirrored at j2 ≥ ne, and newItems
    -- carries the key twice
    have hj2lt : i - (rcSuffix items newItems mapped disposers).e +
        (rcSuffix items newItems mapped disposers).ne < newItems.length := by
      omega
    have heq := inv.heq
      (i - (rcSuffix items newItems mapped disposers).e +
        (rcSuffix items newItems mapped disposers).ne)
      (by omega) hj2lt
    have hidx : i - (rcSuffix items newItems mapped disposers).e +
        (rcSuffix items newItems mapped disposers).ne -
        (rcSuffix items newItems mapped disposers).ne +
        (rcSuffix items newItems mapped disposers).e = i := by omega
    rw [hidx] at heq
    have hk2 : kf (newItems.getD
        (i - (rcSuffix items newItems mapped disposers).e +
          (rcSuffix items newItems mapped disposers).ne) default) =
        kf (newItems.getD j default) := by
      rw [heq]; exact hk
    have := nodup_keys_inj kf hB (by omega) (by omega) hk2
    omega

theorem removed_in_range [DecidableEq T] [Inhabited T] [Inhabited U]
    (kf : T → K) (items newItems : List T) (mapped : List U)
    (disposers : List (Option Nat)) (hd : disposers.length = items.length)
    {i : Nat} (hi : i < items.length)
    (hrem : kf (items.getD i default) ∉ newItems.map kf) :
    rcStart items newItems ≤ i ∧
    i < (rcSuffix items newItems mapped disposers).e := by
  have inv := rcSuffix_inv items newItems mapped disposers hd
  have he := inv.he
  have hne := inv.hne
  have hbal := inv.hbal
  have hle := firstDiffIdx_le items newItems
  constructor
  · by_contra hc
    have hilt : i < rcStart items newItems := by omega
    have heq := firstDiffIdx_prefix_eq items newItems i
      (by unfold rcStart at hilt; exact hilt)
    apply hrem
    rw [heq]
    exact List.mem_map_of_mem kf (getD_mem (by unfold rcStart at hilt; omega))
  · by_contra hc
    have hige : (rcSuffix items newItems mapped disposers).e ≤ i := by omega
    have hj2lt : i - (rcSuffix items newItems mapped disposers).e +
        (rcSuffix items newItems mapped disposers).ne < newItems.length := by
      omega
    have heq := inv.heq
      (i - (rcSuffix items newItems mapped disposers).e +
        (rcSuffix items newItems mapped disposers).ne)
      (by omega) hj2lt
    have hidx : i - (rcSuffix items newItems mapped disposers).e +
        (rcSuffix items newItems mapped disposers).ne -
        (rcSuffix items newItems mapped disposers).ne +
        (rcSuffix items newItems mapped disposers).e = i := by omega
    rw [hidx] at heq
    apply hrem
    rw [← heq]
    exact List.mem_map_of_mem kf (getD_mem hj2lt)

/-! Unconditional frame facts about the match pass. -/

theorem matchPass_lengths [DecidableEq K] [Inhabited T] [Inhabited U]
    (kf : T → K) (items : List T) (mapped : List U) (start : Nat)
    (nxt : List (Option Nat)) :
    ∀ (n i : Nat) (st : MatchSt K U),
      (matchPass kf items mapped start nxt n i st).temp.length =
        st.temp.length ∧
      (matchPass kf items mapped start nxt n i st).tempD.length =
        st.tempD.length ∧
      (matchPass kf items mapped start nxt n i st).disposers.length =
        st.disposers.length := by
  intro n
  induction n with
  | zero => intro i st; exact ⟨rfl, rfl, rfl⟩
  | succ n ih =>
    intro i st
    simp only [matchPass]
    obtain ⟨a1, a2, a3⟩ := ih (i + 1) (matchStep kf items mapped start nxt i st)
    rw [a1, a2, a3]
    cases hcase : klookup st.m (kf (items.getD i default)) with
    | some j0 =>
      simp only [matchStep, hcase]
      exact ⟨by simp, by simp, by simp⟩
    | none =>
      simp only [matchStep, hcase]
      exact ⟨by simp, by simp, by simp⟩

theorem matchPass_disposers_frame [DecidableEq K] [Inhabited T] [Inhabited U]
    (kf : T → K) (items : List T) (mapped : List U) (start : Nat)
    (nxt : List (Option Nat)) :
    ∀ (n i t : Nat) (st : MatchSt K U), t < i →
      (matchPass kf items mapped start nxt n i st).disposers.getD t none =
        st.disposers.getD t none := by
  intro n
  induction n with
  | zero => intro i t st _; rfl
  | succ n ih =>
    intro i t st ht
    simp only [matchPass]
    rw [ih (i + 1) t _ (by omega)]
    cases hcase : klookup st.m (kf (items.getD i default)) with
    | none =>
      simp only [matchStep, hcase]
      exact getD_set_ne _ _ _ (by omega)
    | some j0 =>
      simp only [matchStep, hcase]
      exact getD_set_ne _ _ _ (by omega)

theorem lt_length_of_getD_ne {α : Type} {l : List α} {i : Nat} {d a : α}
    (h : l.getD i d = a) (hne : a ≠ d) : i < l.length := by
  by_contra hc
  rw [getD_of_len_le d (by omega)] at h
  exact hne h.symm

/-! Assembly of the general-case pipeline (map.rs lines 60-145). -/

theorem general_lengths [DecidableEq T] [DecidableEq K] [Inhabited T] [Inhabited U]
    (kf : T → K) (mf : Nat → T → U) (items newItems : List T)
    (mapped : List U) (disposers : List (Option Nat)) (counter : Nat)
    (hm : mapped.length = items.length) (hd : disposers.length = items.length) :
    (reconcileGeneral kf mf items newItems mapped disposers
      counter).mapped.length = newItems.length ∧
    (reconcileGeneral kf mf items newItems mapped disposers
      counter).disposers.length = newItems.length := by
  have inv := rcSuffix_inv items newItems mapped disposers hd
  have hle : rcStart items newItems ≤ min items.length newItems.length :=
    firstDiffIdx_le items newItems
  have hdl := inv.hdisp_len
  obtain ⟨l1, l2, l3⟩ := matchPass_lengths kf items mapped
    (rcStart items newItems) (rcBuild kf items newItems mapped disposers).2
    ((rcSuffix items newItems mapped disposers).e - rcStart items newItems)
    (rcStart items newItems)
    ⟨(rcSuffix items newItems mapped disposers).temp,
     (rcSuffix items newItems mapped disposers).tempD,
     (rcSuffix items newItems mapped disposers).disposers,
     (rcBuild kf items newItems mapped disposers).1, []⟩
  dsimp only at l3
  have hmatch : rcMatch kf items newItems mapped disposers =
      matchPass kf items mapped (rcStart items newItems)
        (rcBuild kf items newItems mapped disposers).2
        ((rcSuffix items newItems mapped disposers).e - rcStart items newItems)
        (rcStart items newItems)
        ⟨(rcSuffix items newItems mapped disposers).temp,
         (rcSuffix items newItems mapped disposers).tempD,
         (rcSuffix items newItems mapped disposers).disposers,
         (rcBuild kf items newItems mapped disposers).1, []⟩ := rfl
  have hfill : rcFill kf mf items newItems mapped disposers counter =
      fillPass mf newItems
        (newItems.length - rcStart items newItems) (rcStart items newItems)
        ⟨mapped, (rcMatch kf items newItems mapped disposers).disposers,
         (rcMatch kf items newItems mapped disposers).temp,
         (rcMatch kf items newItems mapped disposers).tempD, counter, []⟩ := rfl
  obtain ⟨d1, d2, _, _, _, _⟩ := fillPass_spec mf newItems
    (newItems.length - rcStart items newItems) (rcStart items newItems)
    ⟨mapped, (rcMatch kf items newItems mapped disposers).disposers,
     (rcMatch kf items newItems mapped disposers).temp,
     (rcMatch kf items newItems mapped disposers).tempD, counter, []⟩
    (by
      show (rcMatch kf items newItems mapped disposers).disposers.length =
        mapped.length
      rw [hmatch, l3]
      omega)
    (by
      show rcStart items newItems ≤ mapped.length
      omega)
  dsimp only at d1 d2
  rw [← hfill] at d1 d2
  constructor
  · show ((rcFill kf mf items newItems mapped disposers
      counter).mapped.take newItems.length).length = newItems.length
    rw [List.length_take, d1]
    omega
  · show ((rcFill kf mf items newItems mapped disposers
      counter).disposers.take newItems.length).length = newItems.length
    rw [List.length_take, d2, d1]
    omega

theorem general_prefix_frame [DecidableEq T] [DecidableEq K] [Inhabited T]
    [Inhabited U]
    (kf : T → K) (mf : Nat → T → U) (items newItems : List T)
    (mapped : List U) (disposers : List (Option Nat)) (counter : Nat)
    (hm : mapped.length = items.length) (hd : disposers.length = items.length)
    {j : Nat} (hj : j < rcStart items newItems) :
    (reconcileGeneral kf mf items newItems mapped disposers
      counter).mapped.getD j default = mapped.getD j default ∧
    (reconcileGeneral kf mf items newItems mapped disposers
      counter).disposers.getD j none = disposers.getD j none := by
  have inv := rcSuffix_inv items newItems mapped disposers hd
  have hle : rcStart items newItems ≤ min items.length newItems.length :=
    firstDiffIdx_le items newItems
  have hdl := inv.hdisp_len
  have hse := inv.hstart_e
  have heL := inv.he
  obtain ⟨l1, l2, l3⟩ := matchPass_lengths kf items mapped
    (rcStart items newItems) (rcBuild kf items newItems mapped disposers).2
    ((rcSuffix items newItems mapped disposers).e - rcStart items newItems)
    (rcStart items newItems)
    ⟨(rcSuffix items newItems mapped disposers).temp,
     (rcSuffix items newItems mapped disposers).tempD,
     (rcSuffix items newItems mapped disposers).disposers,
     (rcBuild kf items newItems mapped disposers).1, []⟩
  dsimp only at l3
  have hmatch : rcMatch kf items newItems mapped disposers =
      matchPass kf items mapped (rcStart items newItems)
        (rcBuild kf items newItems mapped disposers).2
        ((rcSuffix items newItems mapped disposers).e - rcStart items newItems)
        (rcStart items newItems)
        ⟨(rcSuffix items newItems mapped disposers).temp,
         (rcSuffix items newItems mapped disposers).tempD,
         (rcSuffix items newItems mapped disposers).disposers,
         (rcBuild kf items newItems mapped disposers).1, []⟩ := rfl
  have hfill : rcFill kf mf items newItems mapped disposers counter =
      fillPass mf newItems
        (newItems.length - rcStart items newItems) (rcStart items newItems)
        ⟨mapped, (rcMatch kf items newItems mapped disposers).disposers,
         (rcMatch kf items newItems mapped disposers).temp,
         (rcMatch kf items newItems mapped disposers).tempD, counter, []⟩ := rfl
  obtain ⟨d1, d2, d4, _, _, _⟩ := fillPass_spec mf newItems
    (newItems.length - rcStart items newItems) (rcStart items newItems)
    ⟨mapped, (rcMatch kf items newItems mapped disposers).disposers,
     (rcMatch kf items newItems mapped disposers).temp,
     (rcMatch kf items newItems mapped disposers).tempD, counter, []⟩
    (by
      show (rcMatch kf items newItems mapped disposers).disposers.length =
        mapped.length
      rw [hmatch, l3]
      omega)
    (by
      show rcStart items newItems ≤ mapped.length
      omega)
  dsimp only at d4
  rw [← hfill] at d4
  have hfr := matchPass_disposers_frame kf items mapped
    (rcStart items newItems) (rcBuild kf items newItems mapped disposers).2
    ((rcSuffix items newItems mapped disposers).e - rcStart items newItems)
    (rcStart items newItems) j
    ⟨(rcSuffix items newItems mapped disposers).temp,
     (rcSuffix items newItems mapped disposers).tempD,
     (rcSuffix items newItems mapped disposers).disposers,
     (rcBuild kf items newItems mapped disposers).1, []⟩ hj
  dsimp only at hfr
  rw [← hmatch] at hfr
  constructor
  · show (((rcFill kf mf items newItems mapped disposers
      counter).mapped.take newItems.length)).getD j default = _
    rw [getD_take_lt _ _ (by omega), (d4 j (Or.inl hj)).1]
  · show (((rcFill kf mf items newItems mapped disposers
      counter).disposers.take newItems.length)).getD j none = _
    rw [getD_take_lt _ _ (by omega), (d4 j (Or.inl hj)).2, hfr,
      inv.hdisp j (by omega), if_neg (by omega)]

/-- Main characterization of the general case (map.rs lines 60-145) under
well-formed lengths and unique keys: (1) a slot whose key survives is
filled by moving the old mapped element and the old disposer; (2) a slot
whose key is new gets a freshly created scope; (3) the synchronously
disposed scopes are exactly those of old diff-window positions whose key
misses in the new key map, in position order; (4) created scope ids are
fresh. -/
theorem general_spec [DecidableEq T] [DecidableEq K] [Inhabited T] [Inhabited U]
    (kf : T → K) (mf : Nat → T → U) (items newItems : List T)
    (mapped : List U) (disposers : List (Option Nat)) (counter : Nat)
    (hm : mapped.length = items.length) (hd : disposers.length = items.length)
    (hA : (items.map kf).Nodup) (hB : (newItems.map kf).Nodup) :
    (∀ i j, i < items.length → j < newItems.length →
      kf (items.getD i default) = kf (newItems.getD j default) →
      (reconcileGeneral kf mf items newItems mapped disposers
        counter).mapped.getD j default = mapped.getD i default ∧
      (reconcileGeneral kf mf items newItems mapped disposers
        counter).disposers.getD j none = disposers.getD i none) ∧
    (∀ j, j < newItems.length →
      (∀ i, i < items.length →
        kf (items.getD i default) ≠ kf (newItems.getD j default)) →
      ∃ c, counter ≤ c ∧
        (reconcileGeneral kf mf items newItems mapped disposers
          counter).mapped.getD j default = mf c (newItems.getD j default) ∧
        (reconcileGeneral kf mf items newItems mapped disposers
          counter).disposers.getD j none = some c) ∧
    ((reconcileGeneral kf mf items newItems mapped disposers
      counter).syncDisposed =
      (List.range' (rcStart items newItems)
        ((rcSuffix items newItems mapped disposers).e -
          rcStart items newItems)).filterMap
        (fun i => match klookup (rcBuild kf items newItems mapped disposers).1
            (kf (items.getD i default)) with
          | none => disposers.getD i none
          | some _ => none)) ∧
    (∀ c ∈ (reconcileGeneral kf mf items newItems mapped disposers
      counter).created, counter ≤ c) := by
  have inv := rcSuffix_inv items newItems mapped disposers hd
  have hle : rcStart items newItems ≤ min items.length newItems.length :=
    firstDiffIdx_le items newItems
  have hse := inv.hstart_e
  have hsne := inv.hstart_ne
  have heL := inv.he
  have hneN := inv.hne
  have hbal := inv.hbal
  have htl := inv.htemp_len
  have htDl := inv.htempD_len
  have hdl := inv.hdisp_len
  have Hnxt := rcBuild_nxt_none kf items newItems mapped disposers hd hB
  obtain ⟨c1, c2, c3, c4, c5, c6, c7⟩ := matchPass_spec kf items mapped
    (rcStart items newItems) (rcBuild kf items newItems mapped disposers).2 Hnxt
    ((rcSuffix items newItems mapped disposers).e - rcStart items newItems)
    (rcStart items newItems)
    ⟨(rcSuffix items newItems mapped disposers).temp,
     (rcSuffix items newItems mapped disposers).tempD,
     (rcSuffix items newItems mapped disposers).disposers,
     (rcBuild kf items newItems mapped disposers).1, []⟩
    (by
      intro i1 i2 jx h1 h2 h3 h4 ha hb
      obtain ⟨b1, b2, b3⟩ := rcBuild_lookup_bounds kf items newItems mapped
        disposers hd ha
      obtain ⟨b1', b2', b3'⟩ := rcBuild_lookup_bounds kf items newItems mapped
        disposers hd hb
      exact nodup_keys_inj kf hA (by omega) (by omega) (by rw [← b3, ← b3']))
    (by
      intro i1 jx h1 h2 ha
      obtain ⟨b1, b2, b3⟩ := rcBuild_lookup_bounds kf items newItems mapped
        disposers hd ha
      constructor
      · show jx < (rcSuffix items newItems mapped disposers).temp.length
        omega
      · show jx < (rcSuffix items newItems mapped disposers).tempD.length
        omega)
  dsimp only at c1 c2 c3 c4 c5 c6 c7
  have hmatch : rcMatch kf items newItems mapped disposers =
      matchPass kf items mapped (rcStart items newItems)
        (rcBuild kf items newItems mapped disposers).2
        ((rcSuffix items newItems mapped disposers).e - rcStart items newItems)
        (rcStart items newItems)
        ⟨(rcSuffix items newItems mapped disposers).temp,
         (rcSuffix items newItems mapped disposers).tempD,
         (rcSuffix items newItems mapped disposers).disposers,
         (rcBuild kf items newItems mapped disposers).1, []⟩ := rfl
  have hfill : rcFill kf mf items newItems mapped disposers counter =
      fillPass mf newItems
        (newItems.length - rcStart items newItems) (rcStart items newItems)
        ⟨mapped, (rcMatch kf items newItems mapped disposers).disposers,
         (rcMatch kf items newItems mapped disposers).temp,
         (rcMatch kf items newItems mapped disposers).tempD, counter, []⟩ := rfl
  obtain ⟨d1, d2, d4, d5, d6, d7⟩ := fillPass_spec mf newItems
    (newItems.length - rcStart items newItems) (rcStart items newItems)
    ⟨mapped, (rcMatch kf items newItems mapped disposers).disposers,
     (rcMatch kf items newItems mapped disposers).temp,
     (rcMatch kf items newItems mapped disposers).tempD, counter, []⟩
    (by
      show (rcMatch kf items newItems mapped disposers).disposers.length =
        mapped.length
      rw [hmatch, c2.2.2]
      omega)
    (by
      show rcStart items newItems ≤ mapped.length
      omega)
  dsimp only at d1 d2 d4 d5 d6 d7
  rw [← hmatch] at c3 c4 c6 c7
  rw [← hfill] at d1 d2 d4 d5 d6 d7
  have hgen1 : (reconcileGeneral kf mf items newItems mapped disposers
      counter).mapped =
      (rcFill kf mf items newItems mapped disposers counter).mapped.take
        newItems.length := rfl
  have hgen2 : (reconcileGeneral kf mf items newItems mapped disposers
      counter).disposers =
      (rcFill kf mf items newItems mapped disposers counter).disposers.take
        newItems.length := rfl
  have hgen3 : (reconcileGeneral kf mf items newItems mapped disposers
      counter).syncDisposed =
      (rcMatch kf items newItems mapped disposers).sync := rfl
  have hgen4 : (reconcileGeneral kf mf items newItems mapped disposers
      counter).created =
      (rcFill kf mf items newItems mapped disposers counter).created := rfl
  refine ⟨?_, ?_, ?_, ?_⟩
  · -- (1) transfer
    intro i j hi hj hk
    rcases Nat.lt_or_ge j (rcStart items newItems) with hjlt | hjge
    · -- prefix position: purely positional carry-over
      have hij : i = j := prefix_partner kf items newItems hA hi hjlt hk
      constructor
      · rw [hgen1, getD_take_lt _ _ (by omega), (d4 j (Or.inl hjlt)).1, hij]
      · rw [hgen2, getD_take_lt _ _ (by omega), (d4 j (Or.inl hjlt)).2,
          c6 j (Or.inl hjlt), inv.hdisp j (by omega), if_neg (by omega), hij]
    · rcases Nat.lt_or_ge j (rcSuffix items newItems mapped disposers).ne with
        hjne | hjne
      · -- diff-window position: keyed move
        obtain ⟨hi1, hi2⟩ := old_partner_in_range kf items newItems mapped
          disposers hd hA hB hi hjge hjne hk
        have hlook : klookup (rcBuild kf items newItems mapped disposers).1
            (kf (items.getD i default)) = some j := by
          rw [hk]
          exact rcBuild_lookup_self kf items newItems mapped disposers hd hB
            hjge hjne
        obtain ⟨ht, htD⟩ := c3 i j hi1 (by omega) hlook
        have htD' : (rcMatch kf items newItems mapped
            disposers).tempD.getD j none = disposers.getD i none := by
          rw [htD, inv.hdisp i (by omega), if_neg (by omega)]
        have hd5 := d5 j hjge (by omega)
        simp only [ht] at hd5
        constructor
        · rw [hgen1, getD_take_lt _ _ (by omega)]
          exact hd5.1
        · rw [hgen2, getD_take_lt _ _ (by omega), hd5.2, htD']
      · -- suffix position: positional carry-over through the staging array
        have hij : i = j - (rcSuffix items newItems mapped disposers).ne +
            (rcSuffix items newItems mapped disposers).e :=
          suffix_partner kf items newItems mapped disposers hd hA hi hjne hj hk
        have hnw : ∀ i1, rcStart items newItems ≤ i1 →
            i1 < rcStart items newItems +
              ((rcSuffix items newItems mapped disposers).e -
                rcStart items newItems) →
            klookup (rcBuild kf items newItems mapped disposers).1
              (kf (items.getD i1 default)) ≠ some j := by
          intro i1 h1 h2 hlk
          obtain ⟨b1, b2, _⟩ := rcBuild_lookup_bounds kf items newItems mapped
            disposers hd hlk
          omega
        obtain ⟨ht0, htD0⟩ := c4 j hnw
        have hts : (rcSuffix items newItems mapped disposers).temp.getD j none =
            some (mapped.getD (j - (rcSuffix items newItems mapped disposers).ne +
              (rcSuffix items newItems mapped disposers).e) default) := by
          rw [inv.htemp j hj, if_pos hjne]
        have htDs : (rcSuffix items newItems mapped disposers).tempD.getD j none =
            disposers.getD (j - (rcSuffix items newItems mapped disposers).ne +
              (rcSuffix items newItems mapped disposers).e) none := by
          rw [inv.htempD j hj, if_pos hjne]
        have hd5 := d5 j (by omega) (by omega)
        simp only [ht0, hts] at hd5
        constructor
        · rw [hgen1, getD_take_lt _ _ (by omega), hd5.1, ← hij]
        · rw [hgen2, getD_take_lt _ _ (by omega), hd5.2, htD0, htDs, ← hij]
  · -- (2) fresh creation
    intro j hj hnone
    have hjw1 : rcStart items newItems ≤ j := by
      by_contra hc
      have hc' : j < rcStart items newItems := by omega
      have heq := firstDiffIdx_prefix_eq items newItems j hc'
      exact hnone j (by omega) (by rw [heq])
    have hjw2 : j < (rcSuffix items newItems mapped disposers).ne := by
      by_contra hc
      have hc' : (rcSuffix items newItems mapped disposers).ne ≤ j := by omega
      have heq := inv.heq j hc' hj
      exact hnone (j - (rcSuffix items newItems mapped disposers).ne +
        (rcSuffix items newItems mapped disposers).e) (by omega) (by rw [heq])
    have hnw : ∀ i1, rcStart items newItems ≤ i1 →
        i1 < rcStart items newItems +
          ((rcSuffix items newItems mapped disposers).e -
            rcStart items newItems) →
        klookup (rcBuild kf items newItems mapped disposers).1
          (kf (items.getD i1 default)) ≠ some j := by
      intro i1 h1 h2 hlk
      obtain ⟨b1, b2, b3⟩ := rcBuild_lookup_bounds kf items newItems mapped
        disposers hd hlk
      exact hnone i1 (by omega) b3.symm
    obtain ⟨ht0, _⟩ := c4 j hnw
    have hts : (rcSuffix items newItems mapped disposers).temp.getD j none =
        none := by
      rw [inv.htemp j hj, if_neg (by omega)]
    have hd5 := d5 j hjw1 (by omega)
    simp only [ht0, hts] at hd5
    obtain ⟨c, hc1, hc2, hc3⟩ := hd5
    refine ⟨c, hc1, ?_, ?_⟩
    · rw [hgen1, getD_take_lt _ _ (by omega)]
      exact hc2
    · rw [hgen2, getD_take_lt _ _ (by omega)]
      exact hc3
  · -- (3) synchronous disposals
    rw [hgen3, c7]
    apply List.filterMap_congr
    intro x hx
    have hx' := List.mem_range'_1.1 hx
    cases hlk : klookup (rcBuild kf items newItems mapped disposers).1
        (kf (items.getD x default)) with
    | some j0 => simp only [hlk]
    | none =>
      simp only [hlk]
      rw [inv.hdisp x (by omega), if_neg (by omega)]
  · -- (4) fresh scope ids
    intro c hc
    rw [hgen4] at hc
    rcases d7 c hc with hcin | hcge
    · exact absurd hcin (by simp)
    · exact hcge

/-! Remaining small helpers. -/

theorem suffixLoop_stall [DecidableEq T] [Inhabited T] [Inhabited U]
    (items newItems : List T) (mapped : List U) (start : Nat)
    (fuel : Nat) (st : SuffixSt U)
    (h : ¬(st.e > start ∧ st.ne > start ∧
      items.getD (st.e - 1) default = newItems.getD (st.ne - 1) default)) :
    suffixLoop items newItems mapped start fuel st = st := by
  cases fuel with
  | zero => rfl
  | succ fuel => simp only [suffixLoop, if_neg h]

theorem reconcile_general_eq [DecidableEq T] [DecidableEq K] [Inhabited T]
    [Inhabited U]
    (kf : T → K) (mf : Nat → T → U) (items newItems : List T) (mapped : List U)
    (disposers : List (Option Nat)) (counter : Nat)
    (hi : items ≠ []) (hni : newItems ≠ []) :
    reconcile kf mf items mapped disposers newItems counter =
      reconcileGeneral kf mf items newItems mapped disposers counter := by
  unfold reconcile
  rw [if_neg (by simp [hni]), if_neg (by simp [hi])]

theorem createAll_lengths (mf : Nat → T → U) :
    ∀ (ts : List T) (c : Nat),
      (createAll mf ts c).1.length = ts.length ∧
      (createAll mf ts c).2.1.length = ts.length := by
  intro ts
  induction ts with
  | nil => intro c; exact ⟨rfl, rfl⟩
  | cons t ts ih =>
    intro c
    obtain ⟨h1, h2⟩ := ih (c + 1)
    simp only [createAll, List.length_cons]
    exact ⟨by rw [h1], by rw [h2]⟩

theorem createAll_map (f : T → U) :
    ∀ (ts : List T) (c : Nat),
      (createAll (fun _ t => f t) ts c).1 = ts.map f := by
  intro ts
  induction ts with
  | nil => intro c; rfl
  | cons t ts ih =>
    intro c
    simp only [createAll, List.map_cons]
    rw [ih (c + 1)]

end LeptosMap

/-! # Claim theorems -/

open ListAux LeptosMap

/-- C9: Rendering an `Err` produces no output: `html_len` of an `Err`
value is `0`, and `to_html_with_buf` / `to_html_async_with_buf` on an
`Err` return the buffer and position exactly as passed in; only an `Ok`
value writes its inner content. -/
theorem result_render_err_produces_no_output {T E Pos SB : Type}
    (innerLen : T → Nat) (inner : T → String → Pos → String × Pos)
    (innerAsync : T → SB → Pos → SB × Pos) (e : E) (buf : String)
    (sb : SB) (position : Pos) (t : T) :
    TachysResult.html_len innerLen (Except.error e : Except E T) = 0 ∧
    TachysResult.to_html_with_buf inner (Except.error e : Except E T) buf
      position = (buf, position) ∧
    TachysResult.to_html_async_with_buf innerAsync (Except.error e : Except E T)
      sb position = (sb, position) ∧
    TachysResult.html_len innerLen (Except.ok t : Except E T) = innerLen t ∧
    TachysResult.to_html_with_buf inner (Except.ok t : Except E T) buf
      position = inner t buf position :=
  ⟨rfl, rfl, rfl, rfl, rfl⟩

/-- C10: `Transition::start` is unimplemented: its live body is `todo!()`,
so every call panics unconditionally, independently of the callback, and
installs no transition state; only `Transition::pending` is usable,
returning the current value of the pending signal, which `use_transition`
initializes to `false`. -/
theorem transition_start_unimplemented
    (t : ReactiveTransition.Transition) (f g : Unit → Unit)
    (cx : ReactiveTransition.Scope) :
    t.start f = Except.error ReactiveTransition.PanicKind.todoUnimplemented ∧
    t.start f = t.start g ∧
    (ReactiveTransition.use_transition cx).pending = false ∧
    t.pendingValue = t.pending :=
  ⟨rfl, rfl, rfl, rfl⟩

/-- C5: No-op reconciliation: running the pass with the new input equal to
the previous input (same list, hence equal by key and by value) creates
zero resource scopes and disposes zero resource scopes, synchronously or
deferred. -/
theorem map_keyed_noop_reconciliation {T K U : Type} [DecidableEq T]
    [DecidableEq K] [Inhabited T] [Inhabited U]
    (kf : T → K) (mf : Nat → T → U) (items : List T) (mapped : List U)
    (disposers : List (Option Nat)) (counter : Nat)
    (hd : disposers.length = items.length) :
    (reconcile kf mf items mapped disposers items counter).created = [] ∧
    (reconcile kf mf items mapped disposers items counter).syncDisposed = [] ∧
    (reconcile kf mf items mapped disposers items counter).deferredDisposed
      = [] := by
  cases items with
  | nil =>
    have hnil : disposers = [] :=
      List.eq_nil_of_length_eq_zero (by simpa using hd)
    subst hnil
    exact ⟨rfl, rfl, rfl⟩
  | cons a as =>
    have hstart : rcStart (a :: as) (a :: as) = (a :: as).length :=
      firstDiffIdx_self _
    have hsuf : rcSuffix (a :: as) (a :: as) mapped disposers =
        ⟨(a :: as).length, (a :: as).length,
         List.replicate (a :: as).length none,
         List.replicate (a :: as).length none, disposers⟩ := by
      apply suffixLoop_stall
      intro hcon
      obtain ⟨h1, -, -⟩ := hcon
      dsimp only at h1
      rw [hstart] at h1
      omega
    have he : (rcSuffix (a :: as) (a :: as) mapped disposers).e =
        (a :: as).length := by rw [hsuf]
    have hfm : (rcSuffix (a :: as) (a :: as) mapped disposers).e -
        rcStart (a :: as) (a :: as) = 0 := by
      rw [he, hstart]; omega
    have hff : (a :: as).length - rcStart (a :: as) (a :: as) = 0 := by
      rw [hstart]; omega
    refine ⟨?_, ?_, ?_⟩
    · show (rcFill kf mf (a :: as) (a :: as) mapped disposers counter).created
        = []
      rw [show rcFill kf mf (a :: as) (a :: as) mapped disposers counter =
          fillPass mf (a :: as)
            ((a :: as).length - rcStart (a :: as) (a :: as))
            (rcStart (a :: as) (a :: as))
            ⟨mapped,
             (rcMatch kf (a :: as) (a :: as) mapped disposers).disposers,
             (rcMatch kf (a :: as) (a :: as) mapped disposers).temp,
             (rcMatch kf (a :: as) (a :: as) mapped disposers).tempD,
             counter, []⟩ from rfl, hff]
      rfl
    · show (rcMatch kf (a :: as) (a :: as) mapped disposers).sync = []
      rw [show rcMatch kf (a :: as) (a :: as) mapped disposers =
          matchPass kf (a :: as) mapped (rcStart (a :: as) (a :: as))
            (rcBuild kf (a :: as) (a :: as) mapped disposers).2
            ((rcSuffix (a :: as) (a :: as) mapped disposers).e -
              rcStart (a :: as) (a :: as))
            (rcStart (a :: as) (a :: as))
            ⟨(rcSuffix (a :: as) (a :: as) mapped disposers).temp,
             (rcSuffix (a :: as) (a :: as) mapped disposers).tempD,
             (rcSuffix (a :: as) (a :: as) mapped disposers).disposers,
             (rcBuild kf (a :: as) (a :: as) mapped disposers).1, []⟩ from rfl,
        hfm]
      rfl
    · rfl

/-- C5 witness: a concrete no-op pass over `[1, 2, 3]` creates and
disposes nothing. -/
theorem map_keyed_noop_reconciliation_witness :
    (reconcile (K := Nat) id (fun s t => s + t) [1, 2, 3] [10, 11, 12]
      [some 4, some 5, some 6] [1, 2, 3] 20).created = [] ∧
    (reconcile (K := Nat) id (fun s t => s + t) [1, 2, 3] [10, 11, 12]
      [some 4, some 5, some 6] [1, 2, 3] 20).syncDisposed = [] ∧
    (reconcile (K := Nat) id (fun s t => s + t) [1, 2, 3] [10, 11, 12]
      [some 4, some 5, some 6] [1, 2, 3] 20).deferredDisposed = [] :=
  map_keyed_noop_reconciliation id (fun s t => s + t) [1, 2, 3] [10, 11, 12]
    [some 4, some 5, some 6] 20 (by decide)

/-- C8: Prefix-skip frame property: in the general (both-non-empty) case,
with `start` the first index where the two inputs differ positionally,
every mapped slot and disposer slot below `start` is left exactly as it
was — a purely positional fast path needing no key hypotheses at all. -/
theorem map_keyed_prefix_skip_frame {T K U : Type} [DecidableEq T]
    [DecidableEq K] [Inhabited T] [Inhabited U]
    (kf : T → K) (mf : Nat → T → U) (items newItems : List T)
    (mapped : List U) (disposers : List (Option Nat)) (counter : Nat)
    (hm : mapped.length = items.length) (hd : disposers.length = items.length)
    (hi : items ≠ []) (hni : newItems ≠ []) {j : Nat}
    (hj : j < rcStart items newItems) :
    (reconcile kf mf items mapped disposers newItems
      counter).mapped.getD j default = mapped.getD j default ∧
    (reconcile kf mf items mapped disposers newItems
      counter).disposers.getD j none = disposers.getD j none := by
  rw [reconcile_general_eq kf mf items newItems mapped disposers counter hi hni]
  exact general_prefix_frame kf mf items newItems mapped disposers counter
    hm hd hj

/-- C8 witness: reconciling `[1, 2, 3] -> [1, 5, 3]` (first difference at
index 1) leaves slot 0 untouched. -/
theorem map_keyed_prefix_skip_frame_witness :
    0 < rcStart [1, 2, 3] [1, 5, 3] ∧
    ((reconcile (K := Nat) id (fun s t => s + t) [1, 2, 3] [10, 11, 12]
      [some 4, some 5, some 6] [1, 5, 3] 20).mapped.getD 0 default
      = [10, 11, 12].getD 0 default ∧
    (reconcile (K := Nat) id (fun s t => s + t) [1, 2, 3] [10, 11, 12]
      [some 4, some 5, some 6] [1, 5, 3] 20).disposers.getD 0 none
      = [some 4, some 5, some 6].getD 0 none) :=
  ⟨by decide,
   map_keyed_prefix_skip_frame id (fun s t => s + t) [1, 2, 3] [1, 5, 3]
     [10, 11, 12] [some 4, some 5, some 6] 20 (by decide) (by decide)
     (by decide) (by decide) (by decide)⟩

/-- C7: Duplicate-key resolution: after the backward scan over the new
sub-range `[start, start + n)` (map.rs lines 92-97) the key map holds, for
every key, the lowest index in the range carrying it (earliest position
wins); the next-occurrence table at offset `t` holds the least strictly
higher index carrying the same key as position `start + t`, or nothing;
and a match-pass step that claims index `j` for a key re-points the map at
the next-occurrence candidate `j2`, so repeated keys are matched in
increasing index order. -/
theorem map_keyed_duplicate_key_resolution {T K U : Type} [DecidableEq K]
    [Inhabited T] [Inhabited U]
    (kf : T → K) (ni : List T) (start n : Nat) (k : K) (j j' t : Nat)
    (items : List T) (mapped : List U) (nxt : List (Option Nat)) (i : Nat)
    (st : MatchSt K U) (j2 : Nat) :
    (klookup (buildIdx kf ni start n ([], List.replicate n none)).1 k =
        some j →
      start ≤ j ∧ j < start + n ∧ kf (ni.getD j default) = k ∧
      (start ≤ j' → j' < j → kf (ni.getD j' default) ≠ k)) ∧
    (klookup (buildIdx kf ni start n ([], List.replicate n none)).1 k =
        none →
      start ≤ j → j < start + n → kf (ni.getD j default) ≠ k) ∧
    (t < n →
      ((buildIdx kf ni start n ([], List.replicate n none)).2.getD t none =
          some j →
        start + t < j ∧ j < start + n ∧
        kf (ni.getD j default) = kf (ni.getD (start + t) default) ∧
        (start + t < j' → j' < j →
          kf (ni.getD j' default) ≠ kf (ni.getD (start + t) default))) ∧
      ((buildIdx kf ni start n ([], List.replicate n none)).2.getD t none =
          none →
        start + t < j → j < start + n →
        kf (ni.getD j default) ≠ kf (ni.getD (start + t) default))) ∧
    (klookup st.m (kf (items.getD i default)) = some j →
      nxt.getD (j - start) none = some j2 →
      klookup (matchStep kf items mapped start nxt i st).m
        (kf (items.getD i default)) = some j2) := by
  obtain ⟨r1, r2, r3, r4⟩ := buildIdx_spec kf ni start n n []
    (List.replicate n none) (Nat.le_refl _) (by simp)
    (fun k' => by
      rw [klookup_nil, leastOccFrom_stop kf ni k' (Nat.le_refl _)])
  refine ⟨?_, ?_, ?_, ?_⟩
  · intro hlk
    rw [r1 k] at hlk
    obtain ⟨b1, b2, b3⟩ := leastOccFrom_bounds kf ni k n start j rfl hlk
    exact ⟨b1, b2, b3,
      fun h1 h2 => leastOccFrom_least kf ni k n start j rfl hlk j' h1 h2⟩
  · intro hlk h1 h2
    rw [r1 k] at hlk
    exact leastOccFrom_none kf ni k n start rfl hlk j h1 h2
  · intro ht
    constructor
    · intro hnx
      rw [r3 t ht] at hnx
      obtain ⟨b1, b2, b3⟩ := leastOccFrom_bounds kf ni _
        (start + n - (start + t + 1)) (start + t + 1) j (by omega) hnx
      exact ⟨by omega, b2, b3, fun h1 h2 =>
        leastOccFrom_least kf ni _ (start + n - (start + t + 1))
          (start + t + 1) j (by omega) hnx j' (by omega) h2⟩
    · intro hnx h1 h2
      rw [r3 t ht] at hnx
      exact leastOccFrom_none kf ni _ (start + n - (start + t + 1))
        (start + t + 1) (by omega) hnx j (by omega) h2
  · intro hlk hnx
    simp only [matchStep, hlk, hnx]
    rw [klookup_kinsert, if_pos rfl]

/-- C7 witness: over the new range `[5, 7, 5]` (keys by identity, range
`[0, 3)`), the key map maps key `5` to index `0` (lowest wins), the
next-occurrence entry for offset `0` is index `2`, and a claiming step
advances key `5` to index `2`. -/
theorem map_keyed_duplicate_key_resolution_witness :
    (klookup (buildIdx (K := Nat) id [5, 7, 5] 0 3
        ([], List.replicate 3 none)).1 5 = some 0 →
      0 ≤ 0 ∧ 0 < 0 + 3 ∧ id ([5, 7, 5].getD 0 default) = 5 ∧
      (0 ≤ 1 → 1 < 0 → id ([5, 7, 5].getD 1 default) ≠ 5)) ∧
    (klookup (buildIdx (K := Nat) id [5, 7, 5] 0 3
        ([], List.replicate 3 none)).1 5 = none →
      0 ≤ 0 → 0 < 0 + 3 → id ([5, 7, 5].getD 0 default) ≠ 5) ∧
    (0 < 3 →
      ((buildIdx (K := Nat) id [5, 7, 5] 0 3
          ([], List.replicate 3 none)).2.getD 0 none = some 0 →
        0 + 0 < 0 ∧ 0 < 0 + 3 ∧
        id ([5, 7, 5].getD 0 default) = id ([5, 7, 5].getD (0 + 0) default) ∧
        (0 + 0 < 1 → 1 < 0 →
          id ([5, 7, 5].getD 1 default) ≠ id ([5, 7, 5].getD (0 + 0) default))) ∧
      ((buildIdx (K := Nat) id [5, 7, 5] 0 3
          ([], List.replicate 3 none)).2.getD 0 none = none →
        0 + 0 < 0 → 0 < 0 + 3 →
        id ([5, 7, 5].getD 0 default) ≠ id ([5, 7, 5].getD (0 + 0) default))) ∧
    (klookup (⟨[], [], [some 9], [(5, 0)], []⟩ : MatchSt Nat Nat).m
        (id ([5, 7, 5].getD 0 default)) = some 0 →
      [some 2, none, none].getD (0 - 0) none = some 2 →
      klookup (matchStep (U := Nat) id [5, 7, 5] [50, 70, 50] 0
          [some 2, none, none] 0
          (⟨[], [], [some 9], [(5, 0)], []⟩ : MatchSt Nat Nat)).m
        (id ([5, 7, 5].getD 0 default)) = some 2) :=
  map_keyed_duplicate_key_resolution (U := Nat) id [5, 7, 5] 0 3 5 0 1 0
    [5, 7, 5] [50, 70, 50] [some 2, none, none] 0
    (⟨[], [], [some 9], [(5, 0)], []⟩ : MatchSt Nat Nat) 2

/-- C6: Disposal-timing asymmetry: when the new input is empty (full
clear), every previous scope is disposed via the deferred task queued
behind the pass, and none synchronously; when the new input is non-empty
(general case), nothing is deferred and a removed key's scope is disposed
synchronously within the match pass. -/
theorem map_keyed_disposal_timing_asymmetry {T K U : Type} [DecidableEq T]
    [DecidableEq K] [Inhabited T] [Inhabited U]
    (kf : T → K) (mf : Nat → T → U) (items newItems : List T)
    (mapped : List U) (disposers : List (Option Nat)) (counter : Nat)
    (hm : mapped.length = items.length) (hd : disposers.length = items.length)
    (hA : (items.map kf).Nodup) (hB : (newItems.map kf).Nodup)
    (i s : Nat) (hi : i < items.length)
    (hrem : kf (items.getD i default) ∉ newItems.map kf)
    (hs : disposers.getD i none = some s) :
    (newItems = [] →
      (reconcile kf mf items mapped disposers newItems
        counter).syncDisposed = [] ∧
      (reconcile kf mf items mapped disposers newItems
        counter).deferredDisposed = disposers.filterMap id ∧
      s ∈ (reconcile kf mf items mapped disposers newItems
        counter).deferredDisposed) ∧
    (newItems ≠ [] →
      (reconcile kf mf items mapped disposers newItems
        counter).deferredDisposed = [] ∧
      s ∈ (reconcile kf mf items mapped disposers newItems
        counter).syncDisposed) := by
  have hitems : items ≠ [] := by
    intro h
    subst h
    simp at hi
  constructor
  · intro hni
    subst hni
    refine ⟨rfl, rfl, ?_⟩
    show s ∈ disposers.filterMap id
    exact mem_filterMap_id.2 (mem_of_getD (by omega) hs)
  · intro hni
    rw [reconcile_general_eq kf mf items newItems mapped disposers counter
      hitems hni]
    refine ⟨rfl, ?_⟩
    obtain ⟨-, -, hsync, -⟩ := general_spec kf mf items newItems mapped
      disposers counter hm hd hA hB
    rw [hsync]
    have inv := rcSuffix_inv items newItems mapped disposers hd
    have hse := inv.hstart_e
    have heL := inv.he
    have hneN := inv.hne
    obtain ⟨hr1, hr2⟩ := removed_in_range kf items newItems mapped disposers
      hd hi hrem
    have hlk : klookup (rcBuild kf items newItems mapped disposers).1
        (kf (items.getD i default)) = none := by
      apply rcBuild_lookup_none_of kf items newItems mapped disposers hd
      intro jx hx1 hx2 hcon
      exact hrem (hcon ▸ List.mem_map_of_mem kf
        (getD_mem (show jx < newItems.length by omega)))
    apply List.mem_filterMap.2
    refine ⟨i, ?_, ?_⟩
    · exact List.mem_range'_1.2 ⟨hr1, by omega⟩
    · simp only [hlk]
      exact hs

/-- C6 witness: the full clear `[1, 2] -> []` defers both scopes and
disposes nothing synchronously; the removal `[1, 2] -> [2]` (instantiated
via the non-empty side) disposes scope 4 synchronously with nothing
deferred. -/
theorem map_keyed_disposal_timing_asymmetry_witness :
    (([] : List Nat) = [] →
      (reconcile (K := Nat) id (fun s t => s + t) [1, 2] [10, 11]
        [some 4, some 5] [] 20).syncDisposed = [] ∧
      (reconcile (K := Nat) id (fun s t => s + t) [1, 2] [10, 11]
        [some 4, some 5] [] 20).deferredDisposed =
        [some 4, some 5].filterMap id ∧
      4 ∈ (reconcile (K := Nat) id (fun s t => s + t) [1, 2] [10, 11]
        [some 4, some 5] [] 20).deferredDisposed) ∧
    (([] : List Nat) ≠ [] →
      (reconcile (K := Nat) id (fun s t => s + t) [1, 2] [10, 11]
        [some 4, some 5] [] 20).deferredDisposed = [] ∧
      4 ∈ (reconcile (K := Nat) id (fun s t => s + t) [1, 2] [10, 11]
        [some 4, some 5] [] 20).syncDisposed) :=
  map_keyed_disposal_timing_asymmetry id (fun s t => s + t) [1, 2] []
    [10, 11] [some 4, some 5] 20 (by decide) (by decide) (by decide)
    (by decide) 0 4 (by decide) (by decide) (by decide)

/-- C1: Scope identity preservation: for a key present in both the old
and the new input, the disposer slot at the key's new position holds
exactly the scope previously associated with that key — transferred by
move, never disposed (neither synchronously nor on the deferred path),
never freshly created, and never a scope that belonged to a different
key. -/
theorem map_keyed_scope_identity_preservation {T K U : Type} [DecidableEq T]
    [DecidableEq K] [Inhabited T] [Inhabited U]
    (kf : T → K) (mf : Nat → T → U) (items newItems : List T)
    (mapped : List U) (disposers : List (Option Nat)) (counter : Nat)
    (hw : WfState items mapped disposers counter)
    (hA : (items.map kf).Nodup) (hB : (newItems.map kf).Nodup)
    (i j : Nat) (hi : i < items.length) (hj : j < newItems.length)
    (hk : kf (items.getD i default) = kf (newItems.getD j default)) :
    (reconcile kf mf items mapped disposers newItems counter).disposers.getD
      j none = disposers.getD i none ∧
    disposers.getD i none ∉
      ((reconcile kf mf items mapped disposers newItems
        counter).syncDisposed ++
       (reconcile kf mf items mapped disposers newItems
        counter).deferredDisposed).map some ∧
    disposers.getD i none ∉
      ((reconcile kf mf items mapped disposers newItems
        counter).created).map some := by
  obtain ⟨hm, hd, hnd, hpw, hlt⟩ := hw
  have hitems : items ≠ [] := by intro h; subst h; simp at hi
  have hni : newItems ≠ [] := by intro h; subst h; simp at hj
  rw [reconcile_general_eq kf mf items newItems mapped disposers counter
    hitems hni]
  obtain ⟨htrans, hfresh, hsync, hcreated⟩ := general_spec kf mf items
    newItems mapped disposers counter hm hd hA hB
  have inv := rcSuffix_inv items newItems mapped disposers hd
  have hse := inv.hstart_e
  have heL := inv.he
  have hneN := inv.hne
  have hbal := inv.hbal
  refine ⟨(htrans i j hi hj hk).2, ?_, ?_⟩
  · -- the moved scope is never disposed
    intro hmem
    rw [show (reconcileGeneral kf mf items newItems mapped disposers
        counter).deferredDisposed = [] from rfl, List.append_nil] at hmem
    obtain ⟨s, hsin, hssome⟩ := List.mem_map.1 hmem
    rw [hsync] at hsin
    obtain ⟨x, hxin, hxval⟩ := List.mem_filterMap.1 hsin
    obtain ⟨hx1, hx2⟩ := List.mem_range'_1.1 hxin
    cases hlkx : klookup (rcBuild kf items newItems mapped disposers).1
        (kf (items.getD x default)) with
    | some j0 =>
      simp only [hlkx] at hxval
      exact absurd hxval (by simp)
    | none =>
      simp only [hlkx] at hxval
      have hxi : x = i :=
        disposers_scope_inj hpw (by omega) (by omega) hxval hssome.symm
      rw [hxi] at hlkx hx1 hx2
      rcases Nat.lt_or_ge j (rcStart items newItems) with hjlt | hjge
      · have := prefix_partner kf items newItems hA hi hjlt hk
        omega
      · rcases Nat.lt_or_ge j (rcSuffix items newItems mapped disposers).ne
          with hjne | hjne
        · have hlook := rcBuild_lookup_self kf items newItems mapped
            disposers hd hB hjge hjne
          rw [← hk] at hlook
          rw [hlkx] at hlook
          exact absurd hlook (by simp)
        · have := suffix_partner kf items newItems mapped disposers hd hA hi
            hjne hj hk
          omega
  · -- the moved scope is never recreated
    intro hmem
    obtain ⟨c, hcin, hcsome⟩ := List.mem_map.1 hmem
    have hc1 := hcreated c hcin
    have hclt : c < counter :=
      hlt c (mem_filterMap_id.2 (mem_of_getD (by omega) hcsome.symm))
    omega

/-- C1 witness: reconciling `[1, 2] -> [2, 1]` moves the scope of key `2`
(scope 5) from slot 1 to slot 0 untouched. -/
theorem map_keyed_scope_identity_preservation_witness :
    (reconcile (K := Nat) id (fun s t => s + t) [1, 2] [10, 11]
      [some 4, some 5] [2, 1] 20).disposers.getD 0 none =
      [some 4, some 5].getD 1 none ∧
    [some 4, some 5].getD 1 none ∉
      ((reconcile (K := Nat) id (fun s t => s + t) [1, 2] [10, 11]
        [some 4, some 5] [2, 1] 20).syncDisposed ++
       (reconcile (K := Nat) id (fun s t => s + t) [1, 2] [10, 11]
        [some 4, some 5] [2, 1] 20).deferredDisposed).map some ∧
    [some 4, some 5].getD 1 none ∉
      ((reconcile (K := Nat) id (fun s t => s + t) [1, 2] [10, 11]
        [some 4, some 5] [2, 1] 20).created).map some :=
  map_keyed_scope_identity_preservation id (fun s t => s + t) [1, 2] [2, 1]
    [10, 11] [some 4, some 5] 20 (by decide) (by decide) (by decide) 1 0
    (by decide) (by decide) (by decide)

theorem reconcile_create_eq {T K U : Type} [DecidableEq T] [DecidableEq K]
    [Inhabited T] [Inhabited U]
    (kf : T → K) (mf : Nat → T → U) (mapped : List U)
    (disposers : List (Option Nat)) (newItems : List T) (counter : Nat)
    (hni : newItems ≠ []) :
    reconcile kf mf [] mapped disposers newItems counter =
      { mapped := (mapped ++ (createAll mf newItems counter).1).take
          newItems.length
        disposers := (disposers ++ (createAll mf newItems counter).2.1).take
          newItems.length
        counter := (createAll mf newItems counter).2.2.1
        created := (createAll mf newItems counter).2.2.2
        syncDisposed := []
        deferredDisposed := [] } := by
  unfold reconcile
  rw [if_neg (by simp [hni])]
  rfl

/-- C2: Disposal completeness and exactly-once: the scope of every key
present in the old input but absent from the new input occurs exactly
once in the disposal events of the pass (synchronous ones followed by
the deferred bulk-clear ones), and the combined disposal events carry no
scope twice. -/
theorem map_keyed_disposal_exactly_once {T K U : Type} [DecidableEq T]
    [DecidableEq K] [Inhabited T] [Inhabited U]
    (kf : T → K) (mf : Nat → T → U) (items newItems : List T)
    (mapped : List U) (disposers : List (Option Nat)) (counter : Nat)
    (hw : WfState items mapped disposers counter)
    (hA : (items.map kf).Nodup) (hB : (newItems.map kf).Nodup)
    (i s : Nat) (hi : i < items.length)
    (hrem : kf (items.getD i default) ∉ newItems.map kf)
    (hs : disposers.getD i none = some s) :
    ((reconcile kf mf items mapped disposers newItems counter).syncDisposed ++
      (reconcile kf mf items mapped disposers newItems
        counter).deferredDisposed).count s = 1 ∧
    ((reconcile kf mf items mapped disposers newItems counter).syncDisposed ++
      (reconcile kf mf items mapped disposers newItems
        counter).deferredDisposed).Nodup := by
  obtain ⟨hm, hd, hnd, hpw, hlt⟩ := hw
  have hitems : items ≠ [] := by intro h; subst h; simp at hi
  by_cases hni : newItems = []
  · subst hni
    show (([] : List Nat) ++ disposers.filterMap id).count s = 1 ∧
      (([] : List Nat) ++ disposers.filterMap id).Nodup
    rw [List.nil_append]
    have hnodup : (disposers.filterMap id).Nodup := filterMap_id_nodup hpw
    exact ⟨List.count_eq_one_of_mem hnodup
      (mem_filterMap_id.2 (mem_of_getD (by omega) hs)), hnodup⟩
  · rw [reconcile_general_eq kf mf items newItems mapped disposers counter
      hitems hni]
    rw [show (reconcileGeneral kf mf items newItems mapped disposers
        counter).deferredDisposed = [] from rfl, List.append_nil]
    obtain ⟨-, -, hsync, -⟩ := general_spec kf mf items newItems mapped
      disposers counter hm hd hA hB
    rw [hsync]
    have inv := rcSuffix_inv items newItems mapped disposers hd
    have hse := inv.hstart_e
    have heL := inv.he
    have hneN := inv.hne
    have hnodup : ((List.range' (rcStart items newItems)
        ((rcSuffix items newItems mapped disposers).e -
          rcStart items newItems)).filterMap
        (fun x => match klookup (rcBuild kf items newItems mapped disposers).1
            (kf (items.getD x default)) with
          | none => disposers.getD x none
          | some _ => none)).Nodup := by
      refine List.Nodup.filterMap ?_ (List.nodup_range' _ _)
      intro a a' b hb hb'
      cases hlk : klookup (rcBuild kf items newItems mapped disposers).1
          (kf (items.getD a default)) with
      | some j0 =>
        simp only [hlk] at hb
        exact absurd hb (by simp)
      | none =>
        simp only [hlk, Option.mem_def] at hb
        cases hlk' : klookup (rcBuild kf items newItems mapped disposers).1
            (kf (items.getD a' default)) with
        | some j0 =>
          simp only [hlk'] at hb'
          exact absurd hb' (by simp)
        | none =>
          simp only [hlk', Option.mem_def] at hb'
          exact disposers_scope_inj hpw
            (lt_length_of_getD_ne hb (by simp))
            (lt_length_of_getD_ne hb' (by simp)) hb hb'
    refine ⟨List.count_eq_one_of_mem hnodup ?_, hnodup⟩
    obtain ⟨hr1, hr2⟩ := removed_in_range kf items newItems mapped disposers
      hd hi hrem
    have hlk : klookup (rcBuild kf items newItems mapped disposers).1
        (kf (items.getD i default)) = none := by
      apply rcBuild_lookup_none_of kf items newItems mapped disposers hd
      intro jx hx1 hx2 hcon
      exact hrem (hcon ▸ List.mem_map_of_mem kf
        (getD_mem (show jx < newItems.length by omega)))
    apply List.mem_filterMap.2
    refine ⟨i, List.mem_range'_1.2 ⟨hr1, by omega⟩, ?_⟩
    simp only [hlk]
    exact hs

/-- C2 witness: in `[1, 2, 3] -> [3]`, the scope of removed key `1`
(scope 4) is disposed exactly once and no scope is disposed twice. -/
theorem map_keyed_disposal_exactly_once_witness :
    ((reconcile (K := Nat) id (fun s t => s + t) [1, 2, 3] [10, 11, 12]
      [some 4, some 5, some 6] [3] 20).syncDisposed ++
      (reconcile (K := Nat) id (fun s t => s + t) [1, 2, 3] [10, 11, 12]
        [some 4, some 5, some 6] [3] 20).deferredDisposed).count 4 = 1 ∧
    ((reconcile (K := Nat) id (fun s t => s + t) [1, 2, 3] [10, 11, 12]
      [some 4, some 5, some 6] [3] 20).syncDisposed ++
      (reconcile (K := Nat) id (fun s t => s + t) [1, 2, 3] [10, 11, 12]
        [some 4, some 5, some 6] [3] 20).deferredDisposed).Nodup :=
  map_keyed_disposal_exactly_once id (fun s t => s + t) [1, 2, 3] [3]
    [10, 11, 12] [some 4, some 5, some 6] 20 (by decide) (by decide)
    (by decide) 0 4 (by decide) (by decide) (by decide)

/-- C3: Length invariant and truncation: after a pass the mapped output
and the disposer array both have the length of the new input, and no live
scope is silently dropped by the truncation — every previously held scope
either survives in the new disposer array or is among the disposal events
of the pass. -/
theorem map_keyed_length_invariant_truncation {T K U : Type} [DecidableEq T]
    [DecidableEq K] [Inhabited T] [Inhabited U]
    (kf : T → K) (mf : Nat → T → U) (items newItems : List T)
    (mapped : List U) (disposers : List (Option Nat)) (counter : Nat)
    (hw : WfState items mapped disposers counter)
    (hA : (items.map kf).Nodup) (hB : (newItems.map kf).Nodup) (s : Nat) :
    (reconcile kf mf items mapped disposers newItems
      counter).mapped.length = newItems.length ∧
    (reconcile kf mf items mapped disposers newItems
      counter).disposers.length = newItems.length ∧
    (some s ∈ disposers →
      some s ∈ (reconcile kf mf items mapped disposers newItems
        counter).disposers ∨
      s ∈ (reconcile kf mf items mapped disposers newItems
        counter).syncDisposed ++
        (reconcile kf mf items mapped disposers newItems
          counter).deferredDisposed) := by
  obtain ⟨hm, hd, hnd, hpw, hlt⟩ := hw
  by_cases hni : newItems = []
  · subst hni
    refine ⟨rfl, rfl, fun hsin => Or.inr ?_⟩
    show s ∈ ([] : List Nat) ++ disposers.filterMap id
    rw [List.nil_append]
    exact mem_filterMap_id.2 hsin
  · by_cases hit : items = []
    · subst hit
      have hd0 : disposers = [] :=
        List.eq_nil_of_length_eq_zero (by simpa using hd)
      subst hd0
      rw [reconcile_create_eq kf mf mapped [] newItems counter hni]
      obtain ⟨cl1, cl2⟩ := createAll_lengths mf newItems counter
      have hm0 : mapped = [] :=
        List.eq_nil_of_length_eq_zero (by simpa using hm)
      subst hm0
      refine ⟨?_, ?_, fun hsin => absurd hsin (by simp)⟩
      · show (([] ++ (createAll mf newItems counter).1).take
          newItems.length).length = newItems.length
        rw [List.nil_append, List.length_take, cl1]
        omega
      · show (([] ++ (createAll mf newItems counter).2.1).take
          newItems.length).length = newItems.length
        rw [List.nil_append, List.length_take, cl2]
        omega
    · rw [reconcile_general_eq kf mf items newItems mapped disposers counter
        hit hni]
      obtain ⟨hlen1, hlen2⟩ := general_lengths kf mf items newItems mapped
        disposers counter hm hd
      obtain ⟨htrans, -, hsync, -⟩ := general_spec kf mf items newItems
        mapped disposers counter hm hd hA hB
      have inv := rcSuffix_inv items newItems mapped disposers hd
      have hse := inv.hstart_e
      have heL := inv.he
      have hneN := inv.hne
      refine ⟨hlen1, hlen2, fun hsin => ?_⟩
      obtain ⟨ii, hii, hival⟩ := List.mem_iff_getElem.1 hsin
      have hii' : ii < items.length := by omega
      have hival' : disposers.getD ii none = some s := by
        rw [getD_eq_getElem _ _ hii]
        exact hival
      by_cases hbc : kf (items.getD ii default) ∈ newItems.map kf
      · obtain ⟨b, hbmem, hbk⟩ := List.mem_map.1 hbc
        obtain ⟨jj, hjj, hjval⟩ := List.mem_iff_getElem.1 hbmem
        have hkey : kf (items.getD ii default) =
            kf (newItems.getD jj default) := by
          rw [getD_eq_getElem _ _ hjj, hjval, hbk]
        left
        have htr := (htrans ii jj hii' hjj hkey).2
        rw [hival'] at htr
        exact mem_of_getD (show jj <
          (reconcileGeneral kf mf items newItems mapped disposers
            counter).disposers.length by rw [hlen2]; exact hjj) htr
      · right
        rw [show (reconcileGeneral kf mf items newItems mapped disposers
            counter).deferredDisposed = [] from rfl, List.append_nil, hsync]
        obtain ⟨hr1, hr2⟩ := removed_in_range kf items newItems mapped
          disposers hd hii' hbc
        have hlk : klookup (rcBuild kf items newItems mapped disposers).1
            (kf (items.getD ii default)) = none := by
          apply rcBuild_lookup_none_of kf items newItems mapped disposers hd
          intro jx hx1 hx2 hcon
          exact hbc (hcon ▸ List.mem_map_of_mem kf
            (getD_mem (show jx < newItems.length by omega)))
        apply List.mem_filterMap.2
        refine ⟨ii, List.mem_range'_1.2 ⟨hr1, by omega⟩, ?_⟩
        simp only [hlk]
        exact hival'

/-- C3 witness: for the shrinking reconciliation `[1, 2, 3] -> [2]`, the
output arrays have length 1 and scope 5 (key 2) survives while the other
scopes are accounted for by disposal events. -/
theorem map_keyed_length_invariant_truncation_witness :
    (reconcile (K := Nat) id (fun s t => s + t) [1, 2, 3] [10, 11, 12]
      [some 4, some 5, some 6] [2] 20).mapped.length = [2].length ∧
    (reconcile (K := Nat) id (fun s t => s + t) [1, 2, 3] [10, 11, 12]
      [some 4, some 5, some 6] [2] 20).disposers.length = [2].length ∧
    (some 5 ∈ [some 4, some 5, some 6] →
      some 5 ∈ (reconcile (K := Nat) id (fun s t => s + t) [1, 2, 3]
        [10, 11, 12] [some 4, some 5, some 6] [2] 20).disposers ∨
      5 ∈ (reconcile (K := Nat) id (fun s t => s + t) [1, 2, 3] [10, 11, 12]
        [some 4, some 5, some 6] [2] 20).syncDisposed ++
        (reconcile (K := Nat) id (fun s t => s + t) [1, 2, 3] [10, 11, 12]
          [some 4, some 5, some 6] [2] 20).deferredDisposed) :=
  map_keyed_length_invariant_truncation id (fun s t => s + t) [1, 2, 3] [2]
    [10, 11, 12] [some 4, some 5, some 6] 20 (by decide) (by decide)
    (by decide) 5

/-- C4: Order correctness: with an injective key function, unique keys on
both sides and a well-formed retained state whose mapped values agree
with the (scope-independent) map function, the output of a pass equals
the map function applied positionally to the new input, however many
elements were reused versus created. -/
theorem map_keyed_order_correctness {T K U : Type} [DecidableEq T]
    [DecidableEq K] [Inhabited T] [Inhabited U]
    (kf : T → K) (f : T → U) (items newItems : List T)
    (mapped : List U) (disposers : List (Option Nat)) (counter : Nat)
    (hw : WfState items mapped disposers counter)
    (hinj : Function.Injective kf)
    (hA : (items.map kf).Nodup) (hB : (newItems.map kf).Nodup)
    (hmv : ∀ i, i < items.length →
      mapped.getD i default = f (items.getD i default)) :
    (reconcile kf (fun _ t => f t) items mapped disposers newItems
      counter).mapped = newItems.map f := by
  obtain ⟨hm, hd, hnd, hpw, hlt⟩ := hw
  by_cases hni : newItems = []
  · subst hni
    rfl
  · by_cases hit : items = []
    · subst hit
      have hm0 : mapped = [] :=
        List.eq_nil_of_length_eq_zero (by simpa using hm)
      subst hm0
      rw [reconcile_create_eq kf (fun _ t => f t) [] disposers newItems
        counter hni]
      show (([] ++ (createAll (fun _ t => f t) newItems counter).1).take
        newItems.length) = newItems.map f
      rw [List.nil_append, createAll_map f newItems counter,
        show newItems.length = (newItems.map f).length from
          (List.length_map _ _).symm, List.take_length]
    · rw [reconcile_general_eq kf (fun _ t => f t) items newItems mapped
        disposers counter hit hni]
      obtain ⟨hlen1, -⟩ := general_lengths kf (fun _ t => f t) items newItems
        mapped disposers counter hm hd
      obtain ⟨htrans, hfresh, -, -⟩ := general_spec kf (fun _ t => f t) items
        newItems mapped disposers counter hm hd hA hB
      apply List.ext_getElem (by rw [hlen1]; simp)
      intro n h1 h2
      have hn : n < newItems.length := by simpa using h2
      have hcontent : (reconcileGeneral kf (fun _ t => f t) items newItems
          mapped disposers counter).mapped.getD n default =
          f (newItems.getD n default) := by
        by_cases hex : ∃ i, i < items.length ∧
            kf (items.getD i default) = kf (newItems.getD n default)
        · obtain ⟨i, hi, hk⟩ := hex
          rw [(htrans i n hi hn hk).1, hmv i hi]
          exact congrArg f (hinj hk)
        · push_neg at hex
          obtain ⟨c, -, hc2, -⟩ := hfresh n hn hex
          exact hc2
      rw [← getD_eq_getElem _ default h1, hcontent,
        getD_eq_getElem newItems default hn, List.getElem_map]

/-- C4 witness: reconciling `[1, 2, 3] -> [3, 1, 4]` with map function
`fun t => t * 10` yields `[30, 10, 40]`, the map applied positionally to
the new input. -/
theorem map_keyed_order_correctness_witness :
    (reconcile (K := Nat) id (fun _ t => t * 10) [1, 2, 3] [10, 20, 30]
      [some 4, some 5, some 6] [3, 1, 4] 20).mapped =
      [3, 1, 4].map (fun t => t * 10) :=
  map_keyed_order_correctness id (fun t => t * 10) [1, 2, 3] [3, 1, 4]
    [10, 20, 30] [some 4, some 5, some 6] 20 (by decide)
    (fun a b h => h) (by decide) (by decide) (by decide)
